import Mathlib

/-!
# fillpdf: a shallow embedding of `fillpdf.go`

The Go package fills a PDF form by writing the form data as an FDF document
into a scratch directory, running an external engine (`java -jar mcpdf.jar`)
on it and copying the engine's output to the destination.

Everything the Go code asks of the operating system is made explicit:

* the filesystem is a map from path strings to nodes (`FS`);
* the outcome of every fallible system call is read from an `Env` record, so
  that one `Env` describes one run of the program in one environment;
* the calls that matter for the claims are recorded as `Event`s in the
  `World` that is threaded through the code.

A Go `error` is an `Option String` (`none` is `nil`, `some m` carries
`err.Error()`); a Go `(T, error)` result is an `Except String T`.

Conventions of the model:

* a Go string is a sequence of characters, and a file's content is a string;
* a node is kept under the path string it was created with, and is found
  under that string; `os.RemoveAll` removes a directory with everything
  whose path leads into it, however that path is spelt;
* a `Form` value is an integer, a boolean or a string;
* the engine is a black box whose effect on the filesystem is the output
  file it is asked to write;
* a system call that fails leaves the filesystem as it was, except the
  buffered write and the copy, which can leave a part of the data behind.

The helpers `exists`, `copyFile` and `runCommandInPath` are called by
`fillpdf.go` but declared in another file of the package; they are modelled
after the specification and marked as such.
-/

namespace fillpdf

/-! ## Data model -/

/-- The values a `Form` can hold (`interface{}` in Go), restricted to the
scalars the package is used with: integers, booleans and strings. -/
inductive Value where
  | int (i : Int)
  | bool (b : Bool)
  | str (s : String)
deriving DecidableEq

/-- Go `type Form map[string]interface{}`.  A Go map has no order of its own; a
`Form` here is the list of the map's entries in the order in which the one
`range` loop of the encoder visits them. -/
abbrev Form := List (String × Value)

/-- Go `type Options struct` with the fields `Overwrite bool` and `Flatten bool`. -/
structure Options where
  Overwrite : Bool
  Flatten : Bool
deriving DecidableEq

/-- Go `func defaultOptions() Options`. -/
def defaultOptions : Options :=
  { Overwrite := true, Flatten := true }

/-! ## The environment -/

/-- A filesystem node: a regular file with its content, or a directory. -/
inductive Node where
  | file (content : String)
  | dir
deriving DecidableEq

/-- The filesystem: what is found at each path. -/
abbrev FS := String → Option Node

/-- The filesystem with the node at `p` replaced (`none` removes it). -/
def FS.set (fs : FS) (p : String) (n : Option Node) : FS :=
  fun q => if q = p then n else fs q

/-- The system calls whose occurrence the claims speak about. -/
inductive Event where
  | run (dir name : String) (args : List String)
  | remove (path : String)
  | copy (src dst : String)
  | removeAll (path : String)
  | close (path : String)
  | log (msg : String)
deriving DecidableEq

/-- The state threaded through the program: the filesystem and the calls made
so far (oldest first). -/
structure World where
  fs : FS
  events : List Event

/-- The outcome of each fallible step in one run.  `none` in an error field
means the step succeeds when it is reached. -/
structure Env where
  /-- Go `os.Getwd()`: the working directory, or the error. -/
  getwd : Except String String
  /-- Go `os.Stat(path)` failing for a reason other than absence. -/
  statErr : String → Option String
  /-- Go `ioutil.TempDir`: the name of the new directory, or the error. -/
  tempDir : Except String String
  /-- Go `os.Create` failing. -/
  createErr : Option String
  /-- A write of the buffered document failing: the error that `Flush`
  reports and the number of characters that reached the file. -/
  flushErr : Option (String × Nat)
  /-- Go `file.Close()` failing. -/
  closeErr : Option String
  /-- The engine failing to launch or exiting with a non-zero status. -/
  engineErr : Option String
  /-- The bytes the engine writes to its output file, if it writes it. -/
  engineOut : Option String
  /-- Go `os.Remove` failing. -/
  removeErr : Option String
  /-- The copy failing: the error and what it leaves at the destination
  (`none`: untouched, `some s`: a file holding `s`). -/
  copyErr : Option (String × Option String)
  /-- Go `os.RemoveAll` failing. -/
  removeAllErr : Option String

/-! ## Library functions used by the package -/

/-- The pieces of `s` between occurrences of `sep` (as `strings.Split`). -/
def splitOn (sep : Char) : List Char → List (List Char)
  | [] => [[]]
  | c :: cs =>
    if c = sep then [] :: splitOn sep cs
    else
      match splitOn sep cs with
      | [] => [[c]]
      | x :: xs => (c :: x) :: xs

/-- One path element processed by `filepath.Clean`; `stack` holds the
elements kept so far, last first. -/
def filepath.cleanStep (rooted : Bool) (stack : List (List Char)) (c : List Char) :
    List (List Char) :=
  if c = [] ∨ c = ['.'] then stack
  else if c = ['.', '.'] then
    match stack with
    | top :: rest => if top = ['.', '.'] then c :: stack else rest
    | [] => if rooted then [] else [c]
  else c :: stack

/-- Go `filepath.Clean` on Unix: the shortest path equivalent to `path` by
purely lexical processing. -/
def filepath.Clean (path : String) : String :=
  if path = "" then "."
  else
    let rooted : Bool := path.data.head? = some '/'
    let stack := (splitOn '/' path.data).foldl (filepath.cleanStep rooted) []
    let body := String.mk (List.intercalate ['/'] stack.reverse)
    if rooted then "/" ++ body
    else if stack = [] then "."
    else body

/-- Go `filepath.IsAbs` on Unix. -/
def filepath.IsAbs (path : String) : Bool :=
  path.data.head? = some '/'

/-- Go `filepath.Join`: the elements from the first non-empty one on, joined by
`/` and cleaned; the empty string when every element is empty. -/
def filepath.Join : List String → String
  | [] => ""
  | e :: rest =>
    if e ≠ "" then filepath.Clean (String.intercalate "/" (e :: rest))
    else filepath.Join rest

/-- Go `filepath.Abs` on Unix. -/
def filepath.Abs (o : Env) (path : String) : Except String String :=
  if filepath.IsAbs path then .ok (filepath.Clean path)
  else
    match o.getwd with
    | .error err => .error err
    | .ok wd => .ok (filepath.Join [wd, path])

/-- The elements of a path as `filepath.Clean` keeps them, first one first:
the path with empty and `.` elements dropped and `..` elements resolved. -/
def filepath.elems (path : String) : List (List Char) :=
  ((splitOn '/' path.data).foldl (filepath.cleanStep (filepath.IsAbs path)) []).reverse

/-- Whether `p` names `dir` itself or a place below it: the same string, or
(for a non-empty `dir`) both rooted or both not, the elements of `dir` a
leading part of the elements of `p`, and no `..` among the elements of `p`
that follow.  Paths that differ only by repeated slashes, `.` elements or
resolved `..` elements name the same place. -/
def under (dir p : String) : Bool :=
  decide (p = dir) ||
    (decide (dir ≠ "") && (filepath.IsAbs dir == filepath.IsAbs p)
      && (filepath.elems dir).isPrefixOf (filepath.elems p)
      && decide (['.', '.'] ∉ (filepath.elems p).drop (filepath.elems dir).length))

/-- Go `ioutil.TempDir(dir, pattern)`: creates a new directory and returns its
name. -/
def ioutil.TempDir (o : Env) (_dir _pattern : String) (w : World) :
    Except String String × World :=
  match o.tempDir with
  | .error err => (.error err, w)
  | .ok name => (.ok name, { w with fs := w.fs.set name (some Node.dir) })

/-- Go `os.Create(path)`: creates or truncates the file. -/
def os.Create (o : Env) (path : String) (w : World) : Except String String × World :=
  match o.createErr with
  | some err => (.error err, w)
  | none => (.ok path, { w with fs := w.fs.set path (some (Node.file "")) })

/-- Go `file.Close()`. -/
def os.File.Close (o : Env) (file : String) (w : World) : Option String × World :=
  (o.closeErr, { w with events := w.events ++ [Event.close file] })

/-- Go `os.Remove(path)`. -/
def os.Remove (o : Env) (path : String) (w : World) : Option String × World :=
  let w := { w with events := w.events ++ [Event.remove path] }
  match o.removeErr with
  | some err => (some err, w)
  | none =>
    match w.fs path with
    | none => (some ("remove " ++ path ++ ": no such file or directory"), w)
    | some _ => (none, { w with fs := w.fs.set path none })

/-- Go `os.RemoveAll(path)`: removes `path` and everything below it, under
whichever spelling of its path a node is kept. -/
def os.RemoveAll (o : Env) (path : String) (w : World) : Option String × World :=
  let w := { w with events := w.events ++ [Event.removeAll path] }
  match o.removeAllErr with
  | some err => (some err, w)
  | none => (none, { w with fs := fun q => if under path q then none else w.fs q })

/-- Go `log.Printf`. -/
def log.Printf (msg : String) (w : World) : World :=
  { w with events := w.events ++ [Event.log msg] }

/-- A `bufio.Writer` on a file: the text written to it so far.  Write errors
are sticky and surface in `Flush`. -/
structure bufio.Writer where
  file : String
  buf : String

/-- Go `bufio.NewWriter(file)`. -/
def bufio.NewWriter (file : String) : bufio.Writer :=
  { file := file, buf := "" }

/-- Go `w.Flush()`: the buffered text reaches the file, or a leading part of it
does and the error is returned. -/
def bufio.Writer.Flush (o : Env) (bw : bufio.Writer) (w : World) : Option String × World :=
  match o.flushErr with
  | some (err, n) =>
    (some err, { w with fs := w.fs.set bw.file (some (Node.file (String.mk (bw.buf.data.take n)))) })
  | none => (none, { w with fs := w.fs.set bw.file (some (Node.file bw.buf)) })

/-- Go `fmt.Sprintf("%v", value)`. -/
def fmt.Sprintf_v : Value → String
  | .int i => toString i
  | .bool b => if b then "true" else "false"
  | .str s => s

/-- Go `fmt.Fprintln(w, s)`. -/
def fmt.Fprintln (bw : bufio.Writer) (s : String) : bufio.Writer :=
  { bw with buf := bw.buf ++ s ++ "\n" }

/-- Go `fmt.Fprintf(w, "<< /T (%s) /V (%s)>>\n", key, valueStr)`. -/
def fmt.Fprintf (bw : bufio.Writer) (key valueStr : String) : bufio.Writer :=
  { bw with buf := bw.buf ++ "<< /T (" ++ key ++ ") /V (" ++ valueStr ++ ")>>\n" }

/-! ## Helpers of the package that are not part of `fillpdf.go` -/

/-- Modelled from the spec: the helper `exists` (declared outside
`fillpdf.go`; `exists` is a keyword of Lean, hence the underscore).  "Check
whether a file already exists at the destination"; the check itself can fail
("fails if the existence check, removal, or copy fails"). -/
def exists_ (o : Env) (path : String) (w : World) : Except String Bool :=
  match o.statErr path with
  | some err => .error err
  | none => .ok (w.fs path).isSome

/-- Modelled from the spec: the helper `copyFile` (declared outside
`fillpdf.go`).  "Copy the subprocess output file's full contents to the
destination path"; when it fails "the destination is left either untouched
or only partially determined by the failing step". -/
def copyFile (o : Env) (src dst : String) (w : World) : Option String × World :=
  let w := { w with events := w.events ++ [Event.copy src dst] }
  match o.copyErr with
  | some (err, none) => (some err, w)
  | some (err, some left) => (some err, { w with fs := w.fs.set dst (some (Node.file left)) })
  | none =>
    match w.fs src with
    | some (Node.file c) => (none, { w with fs := w.fs.set dst (some (Node.file c)) })
    | _ => (some ("open " ++ src ++ ": no such file or directory"), w)

/-- Modelled from the spec: the output path in the engine's argument list,
"(a) the fill-form operation, (b) source PDF path, (c) the encoded data
document path, (d) desired output path, and optionally (e) a flatten
directive". -/
def engineOutputPath : List String → Option String
  | "-jar" :: _ :: "fill_form" :: _ :: "data" :: _ :: "output" :: out :: _ => some out
  | _ => none

/-- Modelled from the spec: the helper `runCommandInPath` (declared outside
`fillpdf.go`).  Runs the engine in `dir`; the engine's effect on the
filesystem is its output file; "any non-zero subprocess exit status or launch
failure" is returned as an error. -/
def runCommandInPath (o : Env) (dir name : String) (args : List String) (w : World) :
    Option String × World :=
  let w := { w with events := w.events ++ [Event.run dir name args] }
  let w :=
    match o.engineOut, engineOutputPath args with
    | some bytes, some out => { w with fs := w.fs.set out (some (Node.file bytes)) }
    | _, _ => w
  (o.engineErr, w)

/-! ## `fillpdf.go` -/

/-- Go `const fdfHeader`. -/
def fdfHeader : String :=
  "%FDF-1.2\n%,,oe\"\n1 0 obj\n<<\n/FDF << /Fields ["

/-- Go `const fdfFooter`. -/
def fdfFooter : String :=
  "]\n>>\n>>\nendobj\ntrailer\n<<\n/Root 1 0 R\n>>\n%%EOF"

/-- The `for key, value := range form` loop of `createFdfFile`; `err` is the
function's error variable, which the loop tests and never assigns. -/
def createFdfFile.loop (err : Option String) : Form → bufio.Writer → Except String bufio.Writer
  | [], bw => .ok bw
  | (key, value) :: rest, bw =>
    let valueStr := fmt.Sprintf_v value
    if err ≠ none then .error "failed to convert string to Latin-1"
    else createFdfFile.loop err rest (fmt.Fprintf bw key valueStr)

/-- Go `func createFdfFile(form Form, path string) error`. -/
def createFdfFile (o : Env) (form : Form) (path : String) (w : World) : Option String × World :=
  match os.Create o path w with
  | (.error err, w) => (some err, w)
  | (.ok file, w) =>
    let err : Option String := none
    let bw := bufio.NewWriter file
    let bw := fmt.Fprintln bw fdfHeader
    match createFdfFile.loop err form bw with
    | .error e =>
      -- deferred: file.Close(), result dropped
      (some e, (os.File.Close o file w).2)
    | .ok bw =>
      let bw := fmt.Fprintln bw fdfFooter
      let (r, w) := bw.Flush o w
      -- deferred: file.Close(), result dropped
      (r, (os.File.Close o file w).2)

/-- The deferred function of `Fill`: removes the scratch directory and logs a
failure to do so. -/
def Fill.cleanup (o : Env) (tmpDir : String) (w : World) : World :=
  match os.RemoveAll o tmpDir w with
  | (some errD, w) =>
    log.Printf ("fillpdf: failed to remove temporary directory '" ++ tmpDir ++ "': " ++ errD) w
  | (none, w) => w

/-- Lines 79-94 of `Fill`: the destination check, the removal of an existing
destination and the copy of the engine's output. -/
def Fill.finalize (o : Env) (outputFile destPDFFile : String) (opts : Options) (w : World) :
    Option String × World :=
  match exists_ o destPDFFile w with
  | .error err => (some ("failed to check if destination PDF file exists: " ++ err), w)
  | .ok e =>
    if e && !opts.Overwrite then
      (some ("destination PDF file already exists: '" ++ destPDFFile ++ "'"), w)
    else
      let removed : Option String × World := if e then os.Remove o destPDFFile w else (none, w)
      match removed with
      | (some err, w) => (some ("failed to remove destination PDF file: " ++ err), w)
      | (none, w) =>
        match copyFile o outputFile destPDFFile w with
        | (some err, w) =>
          (some ("failed to copy created output PDF to final destination: " ++ err), w)
        | (none, w) => (none, w)

/-- Lines 58-94 of `Fill`: what runs between the `defer` and the return. -/
def Fill.inWorkspace (o : Env) (form : Form) (formPDFFile destPDFFile : String)
    (opts : Options) (tmpDir : String) (w : World) : Option String × World :=
  let outputFile := filepath.Clean (tmpDir ++ "/output.pdf")
  let fdfFile := filepath.Clean (tmpDir ++ "/data.fdf")
  match createFdfFile o form fdfFile w with
  | (some err, w) => (some ("failed to create fdf form data file: " ++ err), w)
  | (none, w) =>
    let args := ["-jar", "mcpdf.jar", "fill_form", formPDFFile, "data", fdfFile,
      "output", outputFile]
    let args := if opts.Flatten then args ++ ["flatten"] else args
    match runCommandInPath o tmpDir "java" args w with
    | (some err, w) => (some ("mcpdf error: " ++ err), w)
    | (none, w) => Fill.finalize o outputFile destPDFFile opts w

/-- Go `func Fill(form Form, formPDFFile, destPDFFile string, options ...Options) (err error)`. -/
def Fill (o : Env) (form : Form) (formPDFFile destPDFFile : String) (options : List Options)
    (w : World) : Option String × World :=
  let opts :=
    match options with
    | [] => defaultOptions
    | first :: _ => first
  match filepath.Abs o formPDFFile with
  | .error err => (some ("failed to create the absolute path: " ++ err), w)
  | .ok formPDFFile =>
    match filepath.Abs o destPDFFile with
    | .error err => (some ("failed to create the absolute path: " ++ err), w)
    | .ok destPDFFile =>
      match exists_ o formPDFFile w with
      | .error err => (some ("failed to check if form PDF file exists: " ++ err), w)
      | .ok false => (some ("form PDF file does not exist: '" ++ formPDFFile ++ "'"), w)
      | .ok true =>
        match ioutil.TempDir o "" "fillpdf-" w with
        | (.error err, w) => (some ("failed to create temporary directory: " ++ err), w)
        | (.ok tmpDir, w) =>
          let (err, w) := Fill.inWorkspace o form formPDFFile destPDFFile opts tmpDir w
          (err, Fill.cleanup o tmpDir w)

/-! ## The document format, as the specification words it -/

/-- The five lines of the header block. -/
def headerLines : List String :=
  ["%FDF-1.2", "%,,oe\"", "1 0 obj", "<<", "/FDF << /Fields ["]

/-- The nine lines of the footer block. -/
def footerLines : List String :=
  ["]", ">>", ">>", "endobj", "trailer", "<<", "/Root 1 0 R", ">>", "%%EOF"]

/-- The field-entry line of one Form entry: name and value text verbatim
between the parentheses. -/
def fieldLine (e : String × Value) : String :=
  "<< /T (" ++ e.1 ++ ") /V (" ++ fmt.Sprintf_v e.2 ++ ")>>"

/-- A text made of the given lines, each terminated by a newline. -/
def unlines : List String → String
  | [] => ""
  | l :: ls => l ++ "\n" ++ unlines ls

/-- The lines of a text: its pieces between newlines.  A text that ends in a
newline has the empty string as its last piece. -/
def lines (s : String) : List String :=
  (splitOn (Char.ofNat 10) s.data).map String.mk

/-- No field name and no value text of the form contains a newline. -/
def NewlineFree (form : Form) : Prop :=
  ∀ e ∈ form, Char.ofNat 10 ∉ e.1.data ∧ Char.ofNat 10 ∉ (fmt.Sprintf_v e.2).data

/-- The document for a form: header block, one field-entry line per entry,
footer block. -/
def fdfDocument (form : Form) : String :=
  unlines (headerLines ++ form.map fieldLine ++ footerLines)

/-! ## Vocabulary of the claims -/

/-- The options `Fill` works with: the defaults when none is passed, the
first one otherwise (lines 27-30 of `fillpdf.go`). -/
def effectiveOptions (options : List Options) : Options :=
  match options with
  | [] => defaultOptions
  | first :: _ => first

/-- The paths of the scratch workspace `tmpDir`: the directory, what lies
below it, and the two files `Fill` names in it. -/
def scratchPath (tmpDir p : String) : Prop :=
  under tmpDir p = true ∨ p = filepath.Clean (tmpDir ++ "/data.fdf")
    ∨ p = filepath.Clean (tmpDir ++ "/output.pdf")

/-- The directory `ioutil.TempDir` hands out is new: before the call nothing
exists at any path of the workspace. -/
def Fresh (fs : FS) (tmpDir : String) : Prop :=
  ∀ p, scratchPath tmpDir p → fs p = none

/-- The message `msg` contains the text `sub`. -/
def mentions (msg sub : String) : Prop :=
  sub.data <:+: msg.data

instance (msg sub : String) : Decidable (mentions msg sub) := by
  unfold mentions; infer_instance

/-- The argument list `Fill` passes to the engine. -/
def engineArgs (formPDFFile tmpDir : String) (flatten : Bool) : List String :=
  ["-jar", "mcpdf.jar", "fill_form", formPDFFile, "data",
    filepath.Clean (tmpDir ++ "/data.fdf"), "output", filepath.Clean (tmpDir ++ "/output.pdf")]
  ++ (if flatten then ["flatten"] else [])

/-- The world after the data document has been written to the workspace
`tmpDir` (`n`: the number of characters that reached the file, when the write
failed). -/
def afterEncode (form : Form) (tmpDir : String) (n : Option Nat) (w : World) : World :=
  { fs := w.fs.set (filepath.Clean (tmpDir ++ "/data.fdf"))
      (some (Node.file (match n with
        | none => fdfDocument form
        | some k => String.mk ((fdfDocument form).data.take k))))
    events := w.events ++ [Event.close (filepath.Clean (tmpDir ++ "/data.fdf"))] }

/-- The world after the engine has run in the workspace `tmpDir`. -/
def afterEngine (o : Env) (form : Form) (formPDFFile : String) (opts : Options)
    (tmpDir : String) (w : World) : World :=
  { fs :=
      match o.engineOut with
      | some bytes =>
        (afterEncode form tmpDir none w).fs.set (filepath.Clean (tmpDir ++ "/output.pdf"))
          (some (Node.file bytes))
      | none => (afterEncode form tmpDir none w).fs
    events := (afterEncode form tmpDir none w).events
      ++ [Event.run tmpDir "java" (engineArgs formPDFFile tmpDir opts.Flatten)] }

/-- The world after an existing destination has been removed; `w` itself
when there is none. -/
def afterRemove (destPDFFile : String) (w : World) : World :=
  match w.fs destPDFFile with
  | some _ => { fs := w.fs.set destPDFFile none, events := w.events ++ [Event.remove destPDFFile] }
  | none => w

/-- A path element that `filepath.Clean` keeps: not empty, not `.`, without a
slash. -/
def plainElem (c : List Char) : Prop :=
  c ≠ [] ∧ c ≠ ['.'] ∧ '/' ∉ c

/-- The stacks `filepath.Clean` builds (last element first): kept elements
only, and a `..` only in an unrooted path with nothing but `..` before it. -/
def cleanStack (rooted : Bool) : List (List Char) → Prop
  | [] => True
  | c :: s =>
    plainElem c ∧ (c = ['.', '.'] → rooted = false ∧ ∀ d ∈ s, d = ['.', '.'])
      ∧ cleanStack rooted s

/-- The calls the deferred function of `Fill` makes: the removal of the
workspace and, when that fails, the log line. -/
def cleanupEvents (o : Env) (tmpDir : String) : List Event :=
  Event.removeAll tmpDir ::
    (match o.removeAllErr with
      | some errD =>
        [Event.log ("fillpdf: failed to remove temporary directory '" ++ tmpDir ++ "': " ++ errD)]
      | none => [])

/-- The error the specification has `Fill` return, read off the environment
and the filesystem before the call: the steps in the order of sections 4.2 and
4.3, the first one that fails giving the error, which is the name of its stage
followed by its cause (for the two precondition errors: by the path
concerned); `none` when every step succeeds.  The outcomes of closing the data
document and of removing the workspace play no part. -/
def firstFailure (o : Env) (w : World) (src dst : String) (options : List Options) :
    Option String :=
  match filepath.Abs o src with
  | .error e => some ("failed to create the absolute path: " ++ e)
  | .ok s =>
  match filepath.Abs o dst with
  | .error e => some ("failed to create the absolute path: " ++ e)
  | .ok d =>
  match o.statErr s with
  | some e => some ("failed to check if form PDF file exists: " ++ e)
  | none =>
  if (w.fs s).isNone then some ("form PDF file does not exist: '" ++ s ++ "'")
  else
  match o.tempDir with
  | .error e => some ("failed to create temporary directory: " ++ e)
  | .ok t =>
  match o.createErr with
  | some e => some ("failed to create fdf form data file: " ++ e)
  | none =>
  match o.flushErr with
  | some (e, _) => some ("failed to create fdf form data file: " ++ e)
  | none =>
  match o.engineErr with
  | some e => some ("mcpdf error: " ++ e)
  | none =>
  match o.statErr d with
  | some e => some ("failed to check if destination PDF file exists: " ++ e)
  | none =>
  if (w.fs d).isSome && !(effectiveOptions options).Overwrite then
    some ("destination PDF file already exists: '" ++ d ++ "'")
  else
  match (if (w.fs d).isSome then o.removeErr else none) with
  | some e => some ("failed to remove destination PDF file: " ++ e)
  | none =>
  match o.copyErr with
  | some (e, _) => some ("failed to copy created output PDF to final destination: " ++ e)
  | none =>
  match o.engineOut with
  | none =>
    some ("failed to copy created output PDF to final destination: "
      ++ ("open " ++ filepath.Clean (t ++ "/output.pdf") ++ ": no such file or directory"))
  | some _ => none

/-! ## Concrete runs, used to exercise the theorems -/

/-- The empty filesystem. -/
def fsEmpty : FS := fun _ => none

/-- An environment in which every step succeeds; the engine writes
`%PDF-filled`. -/
def envOK : Env :=
  { getwd := .ok "/home/u"
    statErr := fun _ => none
    tempDir := .ok "/tmp/fillpdf-123"
    createErr := none
    flushErr := none
    closeErr := none
    engineErr := none
    engineOut := some "%PDF-filled"
    removeErr := none
    copyErr := none
    removeAllErr := none }

/-- A filesystem holding a form `/home/u/in.pdf` and an earlier result
`/home/u/out.pdf`. -/
def fsDemo : FS := fun p =>
  if p = "/home/u/in.pdf" then some (Node.file "%PDF-form")
  else if p = "/home/u/out.pdf" then some (Node.file "old")
  else none

/-- The world before the call: `fsDemo` and no calls made. -/
def worldDemo : World :=
  { fs := fsDemo, events := [] }

/-- The form `{"name": "Alice", "age": 30}`, visited name first. -/
def formAlice : Form :=
  [("name", .str "Alice"), ("age", .int 30)]

/-- The form `{"name": "Alice", "age": 30}`, visited age first. -/
def formAliceRev : Form :=
  [("age", .int 30), ("name", .str "Alice")]

/-- As `envOK`, but the working directory cannot be determined. -/
def envNoCwd : Env :=
  { envOK with getwd := .error "getwd: no such file or directory" }

/-- As `envOK`, but the scratch directory cannot be removed. -/
def envStuck : Env :=
  { envOK with removeAllErr := some "unlinkat /tmp/fillpdf-123: permission denied" }

/-- As `envOK`, but the copy to the destination fails after seven bytes. -/
def envCopyFails : Env :=
  { envOK with copyErr := some ("write /home/u/new.pdf: no space left on device", some "%PDF-fi") }

/-- As `envOK`, but closing the data document fails. -/
def envCloseFails : Env :=
  { envOK with closeErr := some "close /tmp/fillpdf-123/data.fdf: input/output error" }

/-- As `envOK`, but the name of the scratch directory has a doubled slash
(as with `TMPDIR=/tmp//ws`). -/
def envUnclean : Env :=
  { envOK with tempDir := .ok "/tmp//ws/fillpdf-1" }

/-- As `envOK`, but the check whether the destination exists fails. -/
def envDestStatFails : Env :=
  { envOK with
    statErr := fun p =>
      if p = "/home/u/out.pdf" then some "stat /home/u/out.pdf: permission denied" else none }

/-- As `envOK`, but the engine exits with status 1. -/
def envEngineFails : Env :=
  { envOK with engineErr := some "exit status 1", engineOut := none }

/-! ## Lemmas on texts -/

theorem unlines_append (a b : List String) : unlines (a ++ b) = unlines a ++ unlines b := by
  induction a with
  | nil => simp [unlines]
  | cons x xs ih => simp [unlines, ih, String.append_assoc]

theorem unlines_data (ls : List String) :
    (unlines ls).data = (ls.map (fun l => l.data ++ [Char.ofNat 10])).flatten := by
  induction ls with
  | nil => rfl
  | cons x xs ih =>
    simp only [unlines, String.data_append, ih, List.map_cons, List.flatten_cons]

theorem splitOn_ne_nil (sep : Char) (l : List Char) : splitOn sep l ≠ [] := by
  cases l with
  | nil => simp [splitOn]
  | cons c cs =>
    unfold splitOn
    split
    · simp
    · split <;> simp

theorem splitOn_append_sep (sep : Char) (l r : List Char) (h : sep ∉ l) :
    splitOn sep (l ++ sep :: r) = l :: splitOn sep r := by
  induction l with
  | nil => simp [splitOn]
  | cons c cs ih =>
    have hc : c ≠ sep := fun e => h (by simp [e])
    have hcs : sep ∉ cs := fun e => h (by simp [e])
    have e : (c :: cs) ++ sep :: r = c :: (cs ++ sep :: r) := rfl
    rw [e, splitOn, if_neg hc, ih hcs]

theorem splitOn_join (sep : Char) (ls : List (List Char)) (h : ∀ l ∈ ls, sep ∉ l) :
    splitOn sep (ls.map (fun l => l ++ [sep])).flatten = ls ++ [[]] := by
  induction ls with
  | nil => simp [splitOn]
  | cons x xs ih =>
    have hx : sep ∉ x := h x (by simp)
    have hxs : ∀ l ∈ xs, sep ∉ l := fun l hl => h l (by simp [hl])
    simp only [List.map_cons, List.flatten_cons, List.append_assoc, List.singleton_append,
      splitOn_append_sep sep x _ hx, List.nil_append, ih hxs, List.cons_append]

theorem lines_unlines (ls : List String) (h : ∀ l ∈ ls, Char.ofNat 10 ∉ l.data) :
    lines (unlines ls) = ls ++ [""] := by
  unfold lines
  rw [unlines_data]
  have e : ls.map (fun l => l.data ++ [Char.ofNat 10])
      = (ls.map String.data).map (fun l => l ++ [Char.ofNat 10]) := by
    simp [List.map_map, Function.comp]
  rw [e, splitOn_join]
  · simp only [List.map_append, List.map_map, List.map_cons, List.map_nil]
    have hid : (String.mk ∘ String.data) = id := funext (fun _ => rfl)
    rw [hid, List.map_id]
  · intro l hl
    obtain ⟨s, hs, rfl⟩ := List.mem_map.1 hl
    exact h s hs

theorem splitOn_append (sep : Char) (a r : List Char) :
    splitOn sep (a ++ sep :: r) = splitOn sep a ++ splitOn sep r := by
  induction a with
  | nil => simp [splitOn]
  | cons c cs ih =>
    have e : (c :: cs) ++ sep :: r = c :: (cs ++ sep :: r) := rfl
    rw [e]
    by_cases hc : c = sep
    · simp only [splitOn, if_pos hc, ih, List.cons_append]
    · simp only [splitOn, if_neg hc, ih]
      cases h : splitOn sep cs with
      | nil => exact absurd h (splitOn_ne_nil sep cs)
      | cons x xs => simp

theorem splitOn_of_not_mem (sep : Char) (l : List Char) (h : sep ∉ l) : splitOn sep l = [l] := by
  induction l with
  | nil => rfl
  | cons c cs ih =>
    have hc : c ≠ sep := fun e => h (by simp [e])
    have hcs : sep ∉ cs := fun e => h (by simp [e])
    simp [splitOn, hc, ih hcs]

theorem intercalate_snoc (sep : List Char) (l : List (List Char)) (a : List Char) :
    ∃ pre, List.intercalate sep (l ++ [a]) = pre ++ a := by
  induction l with
  | nil => exact ⟨[], by simp [List.intercalate]⟩
  | cons x xs ih =>
    obtain ⟨pre, hpre⟩ := ih
    refine ⟨x ++ sep ++ pre, ?_⟩
    cases xs with
    | nil =>
      simp [List.intercalate] at hpre ⊢
      simp [hpre]
    | cons y ys =>
      simp only [List.intercalate, List.cons_append, List.intersperse_cons₂,
        List.flatten_cons] at hpre ⊢
      rw [hpre]
      simp

/-! ## Lemmas on paths -/

/-- The cleaned path of a file named `name` in directory `t` ends in `name`. -/
theorem Clean_ends (t : String) (name : List Char) (h0 : name ≠ []) (h1 : name ≠ ['.'])
    (h2 : name ≠ ['.', '.']) (hs : '/' ∉ name) :
    ∃ pre, (filepath.Clean (t ++ String.mk ('/' :: name))).data = pre ++ name := by
  have hne : t ++ String.mk ('/' :: name) ≠ "" := by
    intro h
    have := congrArg String.data h
    simp at this
  have hsplit : splitOn '/' (t ++ String.mk ('/' :: name)).data
      = splitOn '/' t.data ++ [name] := by
    rw [String.data_append, splitOn_append, splitOn_of_not_mem _ _ hs]
  simp only [filepath.Clean, if_neg hne, hsplit, List.foldl_append, List.foldl_cons,
    List.foldl_nil]
  generalize List.foldl _ _ (splitOn '/' t.data) = st
  have hstep : ∀ r, filepath.cleanStep r st name = name :: st := by
    intro r
    simp [filepath.cleanStep, h0, h1, h2]
  simp only [hstep, List.reverse_cons]
  obtain ⟨pre, hpre⟩ := intercalate_snoc ['/'] st.reverse name
  split
  · exact ⟨'/' :: pre, by simp [String.data_append, hpre]⟩
  · simp only [reduceCtorEq, if_false]
    exact ⟨pre, by simp [hpre]⟩

/-- The two files of a workspace have different paths. -/
theorem Clean_output_ne_data (t : String) :
    filepath.Clean (t ++ "/output.pdf") ≠ filepath.Clean (t ++ "/data.fdf") := by
  intro h
  obtain ⟨p1, h1⟩ := Clean_ends t "output.pdf".data (by decide) (by decide) (by decide)
    (by decide)
  obtain ⟨p2, h2⟩ := Clean_ends t "data.fdf".data (by decide) (by decide) (by decide)
    (by decide)
  have e1 : t ++ String.mk ('/' :: "output.pdf".data) = t ++ "/output.pdf" := rfl
  have e2 : t ++ String.mk ('/' :: "data.fdf".data) = t ++ "/data.fdf" := rfl
  rw [e1] at h1
  rw [e2] at h2
  rw [h] at h1
  have := h1.symm.trans h2
  have := congrArg List.reverse this
  simp at this

/-! ## Lemmas on `createFdfFile` -/

theorem createFdfFile_loop_ok (form : Form) (bw : bufio.Writer) :
    createFdfFile.loop none form bw
      = .ok { bw with buf := bw.buf ++ unlines (form.map fieldLine) } := by
  induction form generalizing bw with
  | nil => simp [createFdfFile.loop, unlines]
  | cons e es ih =>
    obtain ⟨key, value⟩ := e
    simp [createFdfFile.loop, ih, fmt.Fprintf, unlines, fieldLine, String.append_assoc]

theorem fdfHeader_lines : fdfHeader ++ "\n" = unlines headerLines := by decide

theorem fdfFooter_lines : fdfFooter ++ "\n" = unlines footerLines := by decide

theorem createFdfFile_ok (o : Env) (form : Form) (path : String) (w : World)
    (hc : o.createErr = none) (hf : o.flushErr = none) :
    createFdfFile o form path w
      = (none, { fs := (w.fs.set path (some (Node.file ""))).set path
                   (some (Node.file (fdfDocument form))),
                 events := w.events ++ [Event.close path] }) := by
  simp only [createFdfFile, os.Create, hc, createFdfFile_loop_ok, bufio.Writer.Flush, hf,
    os.File.Close, fmt.Fprintln, bufio.NewWriter, fdfDocument, unlines_append,
    ← fdfHeader_lines, ← fdfFooter_lines, String.append_assoc, String.empty_append]

/-- What `createFdfFile` returns and leaves behind, by the outcome of creating
and of writing the file. -/
theorem createFdfFile_cases (o : Env) (form : Form) (path : String) (w : World) :
    createFdfFile o form path w =
      match o.createErr with
      | some err => (some err, w)
      | none =>
        match o.flushErr with
        | some (err, n) =>
          (some err,
            { fs := w.fs.set path (some (Node.file (String.mk ((fdfDocument form).data.take n)))),
              events := w.events ++ [Event.close path] })
        | none =>
          (none, { fs := w.fs.set path (some (Node.file (fdfDocument form))),
                   events := w.events ++ [Event.close path] }) := by
  cases hc : o.createErr with
  | some err => simp [createFdfFile, os.Create, hc]
  | none =>
    cases hf : o.flushErr with
    | none =>
      rw [createFdfFile_ok o form path w hc hf]
      simp only [Prod.mk.injEq, true_and, World.mk.injEq, and_true]
      funext q
      simp only [FS.set]
      split <;> rfl
    | some v =>
      obtain ⟨err, n⟩ := v
      simp only [createFdfFile, os.Create, hc, createFdfFile_loop_ok, bufio.Writer.Flush, hf,
        os.File.Close, fmt.Fprintln, bufio.NewWriter, fdfDocument, unlines_append,
        ← fdfHeader_lines, ← fdfFooter_lines, String.append_assoc, String.empty_append]
      simp only [Prod.mk.injEq, true_and, World.mk.injEq, and_true]
      funext q
      simp only [FS.set]
      split <;> rfl

/-! ## Lemmas on `Fill` -/

/-- The world in which the workspace `t` has just been created. -/
theorem TempDir_ok (o : Env) (a b t : String) (w : World) (ht : o.tempDir = .ok t) :
    ioutil.TempDir o a b w = (.ok t, { fs := w.fs.set t (some Node.dir), events := w.events }) := by
  simp [ioutil.TempDir, ht]

theorem Fill_reached (o : Env) (form : Form) (src dst : String) (options : List Options)
    (w : World) (s d t : String)
    (hs : filepath.Abs o src = .ok s) (hd : filepath.Abs o dst = .ok d)
    (hstat : o.statErr s = none) (hsrc : w.fs s ≠ none) (ht : o.tempDir = .ok t) :
    Fill o form src dst options w =
      ((Fill.inWorkspace o form s d (effectiveOptions options) t
          { fs := w.fs.set t (some Node.dir), events := w.events }).1,
        Fill.cleanup o t (Fill.inWorkspace o form s d (effectiveOptions options) t
          { fs := w.fs.set t (some Node.dir), events := w.events }).2) := by
  have hsome : (w.fs s).isSome = true := by
    cases h : w.fs s with
    | none => exact absurd h hsrc
    | some _ => rfl
  simp only [Fill, hs, hd, exists_, hstat, hsome, TempDir_ok o _ _ t w ht]
  rfl

theorem Fill_cases (o : Env) (form : Form) (src dst : String) (options : List Options)
    (w : World) :
    (∃ e, filepath.Abs o src = .error e ∧
      Fill o form src dst options w = (some ("failed to create the absolute path: " ++ e), w)) ∨
    (∃ s e, filepath.Abs o src = .ok s ∧ filepath.Abs o dst = .error e ∧
      Fill o form src dst options w = (some ("failed to create the absolute path: " ++ e), w)) ∨
    (∃ s d e, filepath.Abs o src = .ok s ∧ filepath.Abs o dst = .ok d ∧ o.statErr s = some e ∧
      Fill o form src dst options w
        = (some ("failed to check if form PDF file exists: " ++ e), w)) ∨
    (∃ s d, filepath.Abs o src = .ok s ∧ filepath.Abs o dst = .ok d ∧ o.statErr s = none ∧
      w.fs s = none ∧
      Fill o form src dst options w
        = (some ("form PDF file does not exist: '" ++ s ++ "'"), w)) ∨
    (∃ s d e, filepath.Abs o src = .ok s ∧ filepath.Abs o dst = .ok d ∧ o.statErr s = none ∧
      w.fs s ≠ none ∧ o.tempDir = .error e ∧
      Fill o form src dst options w
        = (some ("failed to create temporary directory: " ++ e), w)) ∨
    (∃ s d t, filepath.Abs o src = .ok s ∧ filepath.Abs o dst = .ok d ∧ o.statErr s = none ∧
      w.fs s ≠ none ∧ o.tempDir = .ok t) := by
  cases hs : filepath.Abs o src with
  | error e => exact Or.inl ⟨e, rfl, by simp [Fill, hs]⟩
  | ok s =>
    cases hd : filepath.Abs o dst with
    | error e => exact Or.inr (Or.inl ⟨s, e, rfl, rfl, by simp [Fill, hs, hd]⟩)
    | ok d =>
      cases hstat : o.statErr s with
      | some e =>
        exact Or.inr (Or.inr (Or.inl ⟨s, d, e, rfl, rfl, hstat, by simp [Fill, hs, hd, exists_, hstat]⟩))
      | none =>
        cases hsrc : w.fs s with
        | none =>
          exact Or.inr (Or.inr (Or.inr (Or.inl ⟨s, d, rfl, rfl, hstat, hsrc,
            by simp [Fill, hs, hd, exists_, hstat, hsrc]⟩)))
        | some n =>
          cases ht : o.tempDir with
          | error e =>
            exact Or.inr (Or.inr (Or.inr (Or.inr (Or.inl ⟨s, d, e, rfl, rfl, hstat, by simp [hsrc],
              rfl, by simp [Fill, hs, hd, exists_, hstat, hsrc, ioutil.TempDir, ht]⟩))))
          | ok t =>
            exact Or.inr (Or.inr (Or.inr (Or.inr (Or.inr ⟨s, d, t, rfl, rfl, hstat, by simp [hsrc], rfl⟩))))

theorem cleanup_fs (o : Env) (t : String) (w : World) (p : String) :
    (Fill.cleanup o t w).fs p
      = if o.removeAllErr = none ∧ under t p = true then none else w.fs p := by
  cases h : o.removeAllErr <;> simp [Fill.cleanup, os.RemoveAll, log.Printf, h]

theorem cleanup_events (o : Env) (t : String) (w : World) :
    (Fill.cleanup o t w).events = w.events ++ cleanupEvents o t := by
  cases h : o.removeAllErr <;> simp [Fill.cleanup, os.RemoveAll, log.Printf, cleanupEvents, h]

theorem mem_cleanupEvents (o : Env) (t : String) (e : Event) (h : e ∈ cleanupEvents o t) :
    e = Event.removeAll t ∨ ∃ msg, e = Event.log msg := by
  cases hr : o.removeAllErr <;> simp [cleanupEvents, hr] at h
  · exact Or.inl h
  · rcases h with h | h
    · exact Or.inl h
    · exact Or.inr ⟨_, h⟩

theorem not_scratch_of_exists {fs : FS} {t d : String} {n : Node} (hf : Fresh fs t)
    (hex : fs d = some n) : ¬ scratchPath t d := by
  intro h
  rw [hf d h] at hex
  cases hex

theorem under_self (t : String) : under t t = true := by
  simp [under]

/-- A path outside the workspace: not below the directory, not the directory
and neither of the two files. -/
theorem not_scratch_elim {t d : String} (h : ¬ scratchPath t d) :
    under t d = false ∧ d ≠ t ∧ d ≠ filepath.Clean (t ++ "/data.fdf")
      ∧ d ≠ filepath.Clean (t ++ "/output.pdf") := by
  have hu : under t d = false := by
    cases hc : under t d with
    | false => rfl
    | true => exact absurd (Or.inl hc) h
  refine ⟨hu, ?_, fun e => h (Or.inr (Or.inl e)), fun e => h (Or.inr (Or.inr e))⟩
  intro e
  rw [e, under_self] at hu
  cases hu


/-- How `Fill.inWorkspace` proceeds up to the finalizer. -/
theorem inWorkspace_cases (o : Env) (form : Form) (s d : String) (opts : Options)
    (t : String) (w : World) :
    (∃ e, o.createErr = some e ∧
      Fill.inWorkspace o form s d opts t w
        = (some ("failed to create fdf form data file: " ++ e), w)) ∨
    (∃ e n, o.createErr = none ∧ o.flushErr = some (e, n) ∧
      Fill.inWorkspace o form s d opts t w
        = (some ("failed to create fdf form data file: " ++ e), afterEncode form t (some n) w)) ∨
    (∃ e, o.createErr = none ∧ o.flushErr = none ∧ o.engineErr = some e ∧
      Fill.inWorkspace o form s d opts t w
        = (some ("mcpdf error: " ++ e), afterEngine o form s opts t w)) ∨
    (o.createErr = none ∧ o.flushErr = none ∧ o.engineErr = none ∧
      Fill.inWorkspace o form s d opts t w
        = Fill.finalize o (filepath.Clean (t ++ "/output.pdf")) d opts
            (afterEngine o form s opts t w)) := by
  have hw : ∀ args, (runCommandInPath o t "java"
      (["-jar", "mcpdf.jar", "fill_form", s, "data", filepath.Clean (t ++ "/data.fdf"),
        "output", filepath.Clean (t ++ "/output.pdf")] ++ args) (afterEncode form t none w)).2
      = { fs :=
            match o.engineOut with
            | some bytes =>
              (afterEncode form t none w).fs.set (filepath.Clean (t ++ "/output.pdf"))
                (some (Node.file bytes))
            | none => (afterEncode form t none w).fs
          events := (afterEncode form t none w).events ++ [Event.run t "java"
            (["-jar", "mcpdf.jar", "fill_form", s, "data", filepath.Clean (t ++ "/data.fdf"),
        "output", filepath.Clean (t ++ "/output.pdf")] ++ args)] } := by
    intro args
    cases ho : o.engineOut <;> simp [runCommandInPath, engineOutputPath, ho]
  cases hc : o.createErr with
  | some e =>
    exact Or.inl ⟨e, rfl, by simp [Fill.inWorkspace, createFdfFile_cases, hc]⟩
  | none =>
    cases hf : o.flushErr with
    | some v =>
      obtain ⟨e, n⟩ := v
      exact Or.inr (Or.inl ⟨e, n, rfl, rfl,
        by simp [Fill.inWorkspace, createFdfFile_cases, hc, hf, afterEncode]⟩)
    | none =>
      have h1 : createFdfFile o form (filepath.Clean (t ++ "/data.fdf")) w
          = (none, afterEncode form t none w) := by
        simp [createFdfFile_cases, hc, hf, afterEncode]
      have h2 : (runCommandInPath o t "java" (engineArgs s t opts.Flatten)
          (afterEncode form t none w)) = (o.engineErr, afterEngine o form s opts t w) := by
        unfold afterEngine engineArgs
        rw [← hw]
        rfl
      have h3 : (if opts.Flatten = true then
          ["-jar", "mcpdf.jar", "fill_form", s, "data", filepath.Clean (t ++ "/data.fdf"),
            "output", filepath.Clean (t ++ "/output.pdf")] ++ ["flatten"]
          else ["-jar", "mcpdf.jar", "fill_form", s, "data", filepath.Clean (t ++ "/data.fdf"),
            "output", filepath.Clean (t ++ "/output.pdf")]) = engineArgs s t opts.Flatten := by
        unfold engineArgs
        cases opts.Flatten <;> simp
      cases he : o.engineErr with
      | some e =>
        refine Or.inr (Or.inr (Or.inl ⟨e, rfl, rfl, rfl, ?_⟩))
        simp only [Fill.inWorkspace, h1, h3, h2, he]
      | none =>
        refine Or.inr (Or.inr (Or.inr ⟨rfl, rfl, rfl, ?_⟩))
        simp only [Fill.inWorkspace, h1, h3, h2, he]

/-- The outcomes of `copyFile`. -/
theorem copyFile_cases (o : Env) (out d : String) (w : World) :
    (∃ e, o.copyErr = some (e, none) ∧
      copyFile o out d w = (some e, { fs := w.fs, events := w.events ++ [Event.copy out d] })) ∨
    (∃ e left, o.copyErr = some (e, some left) ∧
      copyFile o out d w = (some e, { fs := w.fs.set d (some (Node.file left)),
                                      events := w.events ++ [Event.copy out d] })) ∨
    (∃ c, o.copyErr = none ∧ w.fs out = some (Node.file c) ∧
      copyFile o out d w = (none, { fs := w.fs.set d (some (Node.file c)),
                                    events := w.events ++ [Event.copy out d] })) ∨
    (o.copyErr = none ∧ (∀ c, w.fs out ≠ some (Node.file c)) ∧
      copyFile o out d w = (some ("open " ++ out ++ ": no such file or directory"),
        { fs := w.fs, events := w.events ++ [Event.copy out d] })) := by
  cases hcp : o.copyErr with
  | some v =>
    obtain ⟨e, left⟩ := v
    cases left with
    | none => exact Or.inl ⟨e, rfl, by simp [copyFile, hcp]⟩
    | some l => exact Or.inr (Or.inl ⟨e, l, rfl, by simp [copyFile, hcp]⟩)
  | none =>
    cases hout : w.fs out with
    | none =>
      exact Or.inr (Or.inr (Or.inr ⟨rfl, by simp, by simp [copyFile, hcp, hout]⟩))
    | some n =>
      cases n with
      | file c => exact Or.inr (Or.inr (Or.inl ⟨c, rfl, rfl, by simp [copyFile, hcp, hout]⟩))
      | dir => exact Or.inr (Or.inr (Or.inr ⟨rfl, by simp, by simp [copyFile, hcp, hout]⟩))

/-- The outcomes of the finalizer up to the copy. -/
theorem finalize_cases (o : Env) (out d : String) (opts : Options) (w : World) :
    (∃ e, o.statErr d = some e ∧
      Fill.finalize o out d opts w
        = (some ("failed to check if destination PDF file exists: " ++ e), w)) ∨
    (o.statErr d = none ∧ w.fs d ≠ none ∧ opts.Overwrite = false ∧
      Fill.finalize o out d opts w
        = (some ("destination PDF file already exists: '" ++ d ++ "'"), w)) ∨
    (∃ e, o.statErr d = none ∧ w.fs d ≠ none ∧ opts.Overwrite = true ∧ o.removeErr = some e ∧
      Fill.finalize o out d opts w
        = (some ("failed to remove destination PDF file: " ++ e),
            { fs := w.fs, events := w.events ++ [Event.remove d] })) ∨
    (o.statErr d = none ∧ (w.fs d ≠ none → opts.Overwrite = true ∧ o.removeErr = none) ∧
      Fill.finalize o out d opts w
        = match copyFile o out d (afterRemove d w) with
          | (some err, w) =>
            (some ("failed to copy created output PDF to final destination: " ++ err), w)
          | (none, w) => (none, w)) := by
  cases hst : o.statErr d with
  | some e => exact Or.inl ⟨e, rfl, by simp [Fill.finalize, exists_, hst]⟩
  | none =>
    cases hwd : w.fs d with
    | none =>
      refine Or.inr (Or.inr (Or.inr ⟨rfl, by simp, ?_⟩))
      simp [Fill.finalize, exists_, hst, hwd, afterRemove]
    | some n =>
      cases hov : opts.Overwrite with
      | false =>
        exact Or.inr (Or.inl ⟨rfl, by simp, rfl, by simp [Fill.finalize, exists_, hst, hwd, hov]⟩)
      | true =>
        cases hr : o.removeErr with
        | some e =>
          exact Or.inr (Or.inr (Or.inl ⟨e, rfl, by simp, rfl, rfl,
            by simp [Fill.finalize, exists_, hst, hwd, hov, os.Remove, hr]⟩))
        | none =>
          refine Or.inr (Or.inr (Or.inr ⟨rfl, by simp, ?_⟩))
          simp [Fill.finalize, exists_, hst, hwd, hov, os.Remove, hr, afterRemove]

theorem afterEncode_fs_ne (form : Form) (t : String) (n : Option Nat) (w : World) (p : String)
    (h1 : p ≠ filepath.Clean (t ++ "/data.fdf")) :
    (afterEncode form t n w).fs p = w.fs p := by
  simp [afterEncode, FS.set, h1]

theorem afterEngine_fs_ne (o : Env) (form : Form) (s : String) (opts : Options) (t : String)
    (w : World) (p : String) (h1 : p ≠ filepath.Clean (t ++ "/data.fdf"))
    (h2 : p ≠ filepath.Clean (t ++ "/output.pdf")) :
    (afterEngine o form s opts t w).fs p = w.fs p := by
  cases ho : o.engineOut <;> simp [afterEngine, afterEncode, FS.set, h1, h2, ho]

theorem afterEngine_fs_out (o : Env) (form : Form) (s : String) (opts : Options) (t : String)
    (w : World) :
    (afterEngine o form s opts t w).fs (filepath.Clean (t ++ "/output.pdf"))
      = match o.engineOut with
        | some bytes => some (Node.file bytes)
        | none => w.fs (filepath.Clean (t ++ "/output.pdf")) := by
  cases ho : o.engineOut <;>
    simp [afterEngine, afterEncode, FS.set, ho, Clean_output_ne_data t]

theorem afterRemove_fs_ne (d : String) (w : World) (p : String) (h : p ≠ d) :
    (afterRemove d w).fs p = w.fs p := by
  cases hwd : w.fs d <;> simp [afterRemove, hwd, FS.set, h]

/-- A successful finalizer has copied the output file to the destination. -/
theorem finalize_success (o : Env) (out d : String) (opts : Options) (w : World)
    (hod : out ≠ d) (hnil : (Fill.finalize o out d opts w).1 = none) :
    ∃ c, w.fs out = some (Node.file c) ∧
      (Fill.finalize o out d opts w).2.fs d = some (Node.file c) := by
  rcases finalize_cases o out d opts w with ⟨e, _, h⟩ | ⟨_, _, _, h⟩ | ⟨e, _, _, _, _, h⟩ |
    ⟨_, _, h⟩
  · rw [h] at hnil; cases hnil
  · rw [h] at hnil; cases hnil
  · rw [h] at hnil; cases hnil
  · rw [h] at hnil ⊢
    rcases copyFile_cases o out d (afterRemove d w) with ⟨e, _, hc⟩ | ⟨e, l, _, hc⟩ |
      ⟨c, _, hout, hc⟩ | ⟨_, _, hc⟩
    · rw [hc] at hnil; cases hnil
    · rw [hc] at hnil; cases hnil
    · rw [hc]
      rw [afterRemove_fs_ne d w out hod] at hout
      exact ⟨c, hout, by simp [FS.set]⟩
    · rw [hc] at hnil; cases hnil

theorem inWorkspace_success (o : Env) (form : Form) (s d : String) (opts : Options)
    (t : String) (w : World)
    (hnew : ∀ c, w.fs (filepath.Clean (t ++ "/output.pdf")) ≠ some (Node.file c))
    (h2 : d ≠ filepath.Clean (t ++ "/output.pdf"))
    (hnil : (Fill.inWorkspace o form s d opts t w).1 = none) :
    ∃ bytes, o.engineOut = some bytes ∧
      (Fill.inWorkspace o form s d opts t w).2.fs d = some (Node.file bytes) := by
  rcases inWorkspace_cases o form s d opts t w with ⟨e, _, h⟩ | ⟨e, n, _, _, h⟩ |
    ⟨e, _, _, _, h⟩ | ⟨_, _, _, h⟩
  · rw [h] at hnil; cases hnil
  · rw [h] at hnil; cases hnil
  · rw [h] at hnil; cases hnil
  · rw [h] at hnil ⊢
    obtain ⟨c, hc1, hc2⟩ := finalize_success o _ d opts _ (Ne.symm h2) hnil
    rw [afterEngine_fs_out] at hc1
    cases ho : o.engineOut with
    | none =>
      rw [ho] at hc1
      exact absurd hc1 (hnew c)
    | some bytes =>
      rw [ho] at hc1
      simp only [Option.some.injEq, Node.file.injEq] at hc1
      exact ⟨bytes, rfl, by rw [hc2, hc1]⟩

/-- When `Fill` returns nil the destination holds the bytes the engine wrote. -/
theorem Fill_success (o : Env) (form : Form) (src dst : String) (options : List Options)
    (w : World) (d : String) (hd : filepath.Abs o dst = .ok d)
    (hfresh : ∀ t, o.tempDir = .ok t → Fresh w.fs t ∧ ¬ scratchPath t d)
    (hnil : (Fill o form src dst options w).1 = none) :
    ∃ bytes, o.engineOut = some bytes ∧
      (Fill o form src dst options w).2.fs d = some (Node.file bytes) := by
  rcases Fill_cases o form src dst options w with
    ⟨e, _, h⟩ | ⟨s, e, _, _, h⟩ | ⟨s, d', e, _, _, _, h⟩ | ⟨s, d', _, _, _, _, h⟩ |
    ⟨s, d', e, _, _, _, _, _, h⟩ | ⟨s, d', t, hs, hd', hstat, hsrc, ht⟩
  · rw [h] at hnil; cases hnil
  · rw [h] at hnil; cases hnil
  · rw [h] at hnil; cases hnil
  · rw [h] at hnil; cases hnil
  · rw [h] at hnil; cases hnil
  · have hdd : d' = d := by rw [hd] at hd'; cases hd'; rfl
    subst hdd
    obtain ⟨hf, hns⟩ := hfresh t ht
    obtain ⟨hu, hdt, h1, h2⟩ := not_scratch_elim hns
    rw [Fill_reached o form src dst options w s d' t hs hd hstat hsrc ht] at hnil ⊢
    have hnew : ∀ c, ({ fs := w.fs.set t (some Node.dir), events := w.events } : World).fs
        (filepath.Clean (t ++ "/output.pdf")) ≠ some (Node.file c) := by
      intro c
      simp only [FS.set]
      split
      · simp
      · rw [hf _ (Or.inr (Or.inr rfl))]
        simp
    obtain ⟨bytes, hb1, hb2⟩ := inWorkspace_success o form s d' (effectiveOptions options) t _
      hnew h2 hnil
    refine ⟨bytes, hb1, ?_⟩
    simp only [cleanup_fs, hu]
    simpa using hb2

theorem fresh_demo : Fresh fsDemo "/tmp/fillpdf-123" := by
  intro p hp
  unfold fsDemo
  split
  · next h => subst h; revert hp; unfold scratchPath; decide
  · split
    · next h => subst h; revert hp; unfold scratchPath; decide
    · rfl

theorem not_scratch_new : ¬ scratchPath "/tmp/fillpdf-123" "/home/u/new.pdf" := by
  unfold scratchPath; decide

/-- The finalizer records only the removal of the destination and the copy. -/
theorem finalize_events (o : Env) (out d : String) (opts : Options) (w : World) :
    ∃ post, (Fill.finalize o out d opts w).2.events = w.events ++ post ∧
      ∀ e ∈ post, e = Event.remove d ∨ e = Event.copy out d := by
  have hrem : ∃ post, (afterRemove d w).events = w.events ++ post ∧
      ∀ e ∈ post, e = Event.remove d ∨ e = Event.copy out d := by
    cases hwd : w.fs d with
    | none => exact ⟨[], by simp [afterRemove, hwd], by simp⟩
    | some n => exact ⟨[Event.remove d], by simp [afterRemove, hwd], by simp⟩
  rcases finalize_cases o out d opts w with ⟨e, _, h⟩ | ⟨_, _, _, h⟩ | ⟨e, _, _, _, _, h⟩ |
    ⟨_, _, h⟩
  · rw [h]; exact ⟨[], by simp, by simp⟩
  · rw [h]; exact ⟨[], by simp, by simp⟩
  · rw [h]; exact ⟨[Event.remove d], by simp, by simp⟩
  · rw [h]
    obtain ⟨post, hp1, hp2⟩ := hrem
    refine ⟨post ++ [Event.copy out d], ?_, ?_⟩
    · rcases copyFile_cases o out d (afterRemove d w) with ⟨e, _, hc⟩ | ⟨e, l, _, hc⟩ |
        ⟨c, _, _, hc⟩ | ⟨_, _, hc⟩ <;> rw [hc] <;> simp [hp1]
    · intro e he
      rcases List.mem_append.1 he with he | he
      · exact hp2 e he
      · exact Or.inr (by simpa using he)

theorem afterEngine_events (o : Env) (form : Form) (s : String) (opts : Options) (t : String)
    (w : World) :
    (afterEngine o form s opts t w).events
      = w.events ++ [Event.close (filepath.Clean (t ++ "/data.fdf")),
          Event.run t "java" (engineArgs s t opts.Flatten)] := by
  simp [afterEngine, afterEncode]

/-- What `Fill.inWorkspace` records when the data document is written: the
close of the document, the engine run, then only removals and copies. -/
theorem inWorkspace_events (o : Env) (form : Form) (s d : String) (opts : Options)
    (t : String) (w : World) (hc : o.createErr = none) (hf : o.flushErr = none) :
    ∃ post, (Fill.inWorkspace o form s d opts t w).2.events
        = w.events ++ Event.close (filepath.Clean (t ++ "/data.fdf"))
          :: Event.run t "java" (engineArgs s t opts.Flatten) :: post ∧
      ∀ e ∈ post, e = Event.remove d ∨ e = Event.copy (filepath.Clean (t ++ "/output.pdf")) d := by
  rcases inWorkspace_cases o form s d opts t w with ⟨e, h, _⟩ | ⟨e, n, _, h, _⟩ |
    ⟨e, _, _, _, h⟩ | ⟨_, _, _, h⟩
  · rw [hc] at h; cases h
  · rw [hf] at h; cases h
  · rw [h]; exact ⟨[], by simp [afterEngine, afterEncode], by simp⟩
  · rw [h]
    obtain ⟨post, hp1, hp2⟩ := finalize_events o (filepath.Clean (t ++ "/output.pdf")) d opts
      (afterEngine o form s opts t w)
    exact ⟨post, by rw [hp1, afterEngine_events]; simp, hp2⟩

/-- Whatever happens in the workspace, calls are only added to the record. -/
theorem inWorkspace_events_grow (o : Env) (form : Form) (s d : String) (opts : Options)
    (t : String) (w : World) :
    ∃ pre, (Fill.inWorkspace o form s d opts t w).2.events = w.events ++ pre := by
  rcases inWorkspace_cases o form s d opts t w with ⟨e, _, h⟩ | ⟨e, n, _, _, h⟩ |
    ⟨e, _, _, _, h⟩ | ⟨_, _, _, h⟩
  · rw [h]; exact ⟨[], by simp⟩
  · rw [h]; exact ⟨_, rfl⟩
  · rw [h]; exact ⟨_, afterEngine_events o form s opts t w⟩
  · rw [h]
    obtain ⟨post, hp1, _⟩ := finalize_events o (filepath.Clean (t ++ "/output.pdf")) d opts
      (afterEngine o form s opts t w)
    exact ⟨[Event.close (filepath.Clean (t ++ "/data.fdf")),
      Event.run t "java" (engineArgs s t opts.Flatten)] ++ post,
      by rw [hp1, afterEngine_events, List.append_assoc]⟩

/-- An error from the finalizer leaves the destination as it was, unless it is
the error of the removal or of the copy. -/
theorem finalize_error (o : Env) (out d : String) (opts : Options) (w : World) (msg : String)
    (herr : (Fill.finalize o out d opts w).1 = some msg) :
    (Fill.finalize o out d opts w).2.fs d = w.fs d ∨
    (∃ cause, msg = "failed to remove destination PDF file: " ++ cause ∧ w.fs d ≠ none ∧
      opts.Overwrite = true) ∨
    (∃ cause, msg = "failed to copy created output PDF to final destination: " ++ cause) := by
  rcases finalize_cases o out d opts w with ⟨e, _, h⟩ | ⟨_, _, _, h⟩ | ⟨e, _, hx, hov, _, h⟩ |
    ⟨_, _, h⟩
  · rw [h]; exact Or.inl rfl
  · rw [h]; exact Or.inl rfl
  · rw [h] at herr ⊢; exact Or.inl rfl
  · rw [h] at herr
    rcases copyFile_cases o out d (afterRemove d w) with ⟨e, _, hc⟩ | ⟨e, l, _, hc⟩ |
      ⟨c, _, _, hc⟩ | ⟨_, _, hc⟩
    · rw [hc] at herr
      exact Or.inr (Or.inr ⟨e, by simpa using herr.symm⟩)
    · rw [hc] at herr
      exact Or.inr (Or.inr ⟨e, by simpa using herr.symm⟩)
    · rw [hc] at herr; cases herr
    · rw [hc] at herr
      exact Or.inr (Or.inr ⟨_, by simpa using herr.symm⟩)

theorem inWorkspace_error (o : Env) (form : Form) (s d : String) (opts : Options)
    (t : String) (w : World) (msg : String)
    (h1 : d ≠ filepath.Clean (t ++ "/data.fdf")) (h2 : d ≠ filepath.Clean (t ++ "/output.pdf"))
    (herr : (Fill.inWorkspace o form s d opts t w).1 = some msg) :
    (Fill.inWorkspace o form s d opts t w).2.fs d = w.fs d ∨
    (∃ cause, msg = "failed to remove destination PDF file: " ++ cause ∧ w.fs d ≠ none ∧
      opts.Overwrite = true) ∨
    (∃ cause, msg = "failed to copy created output PDF to final destination: " ++ cause) := by
  rcases inWorkspace_cases o form s d opts t w with ⟨e, _, h⟩ | ⟨e, n, _, _, h⟩ |
    ⟨e, _, _, _, h⟩ | ⟨_, _, _, h⟩
  · rw [h]; exact Or.inl rfl
  · rw [h]; exact Or.inl (afterEncode_fs_ne form t (some n) w d h1)
  · rw [h]; exact Or.inl (afterEngine_fs_ne o form s opts t w d h1 h2)
  · rw [h] at herr ⊢
    have hw := afterEngine_fs_ne o form s opts t w d h1 h2
    rcases finalize_error o _ d opts _ msg herr with hx | ⟨c, hc1, hc2, hc3⟩ | hx
    · exact Or.inl (hx.trans hw)
    · exact Or.inr (Or.inl ⟨c, hc1, by rwa [hw] at hc2, hc3⟩)
    · exact Or.inr (Or.inr hx)

/-- A finalizer that returns nil: every step of it succeeded, and what it
recorded is the removal of an existing destination followed by the copy. -/
theorem finalize_nil (o : Env) (out d : String) (opts : Options) (w : World)
    (hnil : (Fill.finalize o out d opts w).1 = none) :
    o.statErr d = none ∧ o.copyErr = none ∧
    (w.fs d ≠ none → opts.Overwrite = true ∧ o.removeErr = none) ∧
    (Fill.finalize o out d opts w).2.events = (afterRemove d w).events ++ [Event.copy out d] := by
  rcases finalize_cases o out d opts w with ⟨e, _, h⟩ | ⟨_, _, _, h⟩ | ⟨e, _, _, _, _, h⟩ |
    ⟨hst, hrm, h⟩
  · rw [h] at hnil; cases hnil
  · rw [h] at hnil; cases hnil
  · rw [h] at hnil; cases hnil
  · rw [h] at hnil ⊢
    rcases copyFile_cases o out d (afterRemove d w) with ⟨e, _, hc⟩ | ⟨e, l, _, hc⟩ |
      ⟨c, hcp, _, hc⟩ | ⟨_, _, hc⟩
    · rw [hc] at hnil; cases hnil
    · rw [hc] at hnil; cases hnil
    · rw [hc]; exact ⟨hst, hcp, hrm, rfl⟩
    · rw [hc] at hnil; cases hnil

theorem inWorkspace_no_overwrite (o : Env) (form : Form) (s d : String) (opts : Options)
    (t : String) (w : World) (n : Node) (hov : opts.Overwrite = false) (hex : w.fs d = some n)
    (h1 : d ≠ filepath.Clean (t ++ "/data.fdf")) (h2 : d ≠ filepath.Clean (t ++ "/output.pdf")) :
    (Fill.inWorkspace o form s d opts t w).1 ≠ none ∧
    (Fill.inWorkspace o form s d opts t w).2.fs d = some n ∧
    ∃ new, (Fill.inWorkspace o form s d opts t w).2.events = w.events ++ new ∧
      (∀ p, Event.remove p ∉ new) ∧ (∀ src p, Event.copy src p ∉ new) := by
  rcases inWorkspace_cases o form s d opts t w with ⟨e, _, h⟩ | ⟨e, k, _, _, h⟩ |
    ⟨e, _, _, _, h⟩ | ⟨_, _, _, h⟩
  · rw [h]; exact ⟨by simp, hex, [], by simp, by simp, by simp⟩
  · rw [h]
    exact ⟨by simp, (afterEncode_fs_ne form t (some k) w d h1).trans hex, _, rfl, by simp,
      by simp⟩
  · rw [h]
    exact ⟨by simp, (afterEngine_fs_ne o form s opts t w d h1 h2).trans hex, _,
      afterEngine_events o form s opts t w, by simp, by simp⟩
  · rw [h]
    have hw : (afterEngine o form s opts t w).fs d = some n :=
      (afterEngine_fs_ne o form s opts t w d h1 h2).trans hex
    rcases finalize_cases o (filepath.Clean (t ++ "/output.pdf")) d opts
        (afterEngine o form s opts t w) with
      ⟨e, _, hfin⟩ | ⟨_, _, _, hfin⟩ | ⟨e, _, _, hov2, _, _⟩ | ⟨_, hrm, _⟩
    · rw [hfin]
      exact ⟨by simp, hw, _, afterEngine_events o form s opts t w, by simp, by simp⟩
    · rw [hfin]
      exact ⟨by simp, hw, _, afterEngine_events o form s opts t w, by simp, by simp⟩
    · rw [hov] at hov2; cases hov2
    · have := (hrm (by simp [hw])).1
      rw [hov] at this; cases this

theorem splitOn_no_sep (sep : Char) (l : List Char) : ∀ p ∈ splitOn sep l, sep ∉ p := by
  induction l with
  | nil => simp [splitOn]
  | cons c cs ih =>
    unfold splitOn
    by_cases hc : c = sep
    · simp only [if_pos hc]
      intro p hp
      rcases List.mem_cons.1 hp with rfl | hp
      · simp
      · exact ih p hp
    · simp only [if_neg hc]
      cases h : splitOn sep cs with
      | nil => exact absurd h (splitOn_ne_nil sep cs)
      | cons x xs =>
        rw [h] at ih
        intro p hp
        rcases List.mem_cons.1 hp with rfl | hp
        · intro hm
          rcases List.mem_cons.1 hm with e | hm
          · exact hc e.symm
          · exact ih x (by simp) hm
        · exact ih p (by simp [hp])

theorem intercalate_single (sep a : List Char) : List.intercalate sep [a] = a := by
  simp [List.intercalate]

theorem intercalate_cons_cons (sep a b : List Char) (rest : List (List Char)) :
    List.intercalate sep (a :: b :: rest) = a ++ (sep ++ List.intercalate sep (b :: rest)) := by
  simp [List.intercalate]

theorem splitOn_intercalate (sep : Char) (l : List (List Char)) (hne : l ≠ [])
    (h : ∀ c ∈ l, sep ∉ c) : splitOn sep (List.intercalate [sep] l) = l := by
  induction l with
  | nil => exact absurd rfl hne
  | cons a rest ih =>
    have ha : sep ∉ a := h a (by simp)
    cases rest with
    | nil => rw [intercalate_single, splitOn_of_not_mem sep a ha]
    | cons b rest2 =>
      have hr : ∀ c ∈ b :: rest2, sep ∉ c := fun c hc => h c (by simp [List.mem_cons] at hc ⊢; tauto)
      rw [intercalate_cons_cons, List.singleton_append, splitOn_append,
        splitOn_of_not_mem sep a ha, ih (by simp) hr]
      rfl

theorem cleanStep_push (r : Bool) (s : List (List Char)) (c : List Char) (hp : plainElem c)
    (hd : c = ['.', '.'] → r = false ∧ ∀ d ∈ s, d = ['.', '.']) :
    filepath.cleanStep r s c = c :: s := by
  obtain ⟨h0, h1, _⟩ := hp
  unfold filepath.cleanStep
  rw [if_neg (by simp [h0, h1])]
  by_cases hdd : c = ['.', '.']
  · rw [if_pos hdd]
    obtain ⟨hr, hall⟩ := hd hdd
    cases s with
    | nil => simp [hr, hdd]
    | cons top rest =>
      have : top = ['.', '.'] := hall top (by simp)
      simp [this, hdd]
  · rw [if_neg hdd]

theorem cleanStack_tail {r : Bool} {c : List Char} {s : List (List Char)}
    (h : cleanStack r (c :: s)) : cleanStack r s := h.2.2

theorem cleanStep_cleanStack (r : Bool) (s : List (List Char)) (c : List Char)
    (hs : cleanStack r s) (hc : '/' ∉ c) : cleanStack r (filepath.cleanStep r s c) := by
  unfold filepath.cleanStep
  by_cases h0 : c = [] ∨ c = ['.']
  · rw [if_pos h0]; exact hs
  · rw [if_neg h0]
    have hplain : plainElem c := ⟨fun e => h0 (Or.inl e), fun e => h0 (Or.inr e), hc⟩
    by_cases hdd : c = ['.', '.']
    · rw [if_pos hdd]
      cases s with
      | nil =>
        cases r with
        | true => simp [cleanStack]
        | false =>
          simp only [Bool.false_eq_true, if_false]
          exact ⟨hplain, fun _ => ⟨rfl, by simp⟩, trivial⟩
      | cons top rest =>
        by_cases ht : top = ['.', '.']
        · simp only [if_pos ht]
          obtain ⟨hr, hall⟩ := hs.2.1 ht
          refine ⟨hplain, fun _ => ⟨hr, ?_⟩, hs⟩
          intro d hd
          rcases List.mem_cons.1 hd with rfl | hd
          · exact ht
          · exact hall d hd
        · simp only [if_neg ht]
          exact cleanStack_tail hs
    · rw [if_neg hdd]
      exact ⟨hplain, fun e => absurd e hdd, hs⟩

theorem foldl_cleanStack (r : Bool) (ps : List (List Char)) (hps : ∀ p ∈ ps, '/' ∉ p) :
    ∀ s, cleanStack r s → cleanStack r (ps.foldl (filepath.cleanStep r) s) := by
  induction ps with
  | nil => intro s hs; exact hs
  | cons p rest ih =>
    intro s hs
    simp only [List.foldl_cons]
    exact ih (fun q hq => hps q (by simp [hq])) _
      (cleanStep_cleanStack r s p hs (hps p (by simp)))

/-- Running `filepath.Clean` over the elements it kept gives them back. -/
theorem foldl_rebuild (r : Bool) (st : List (List Char)) (h : cleanStack r st) :
    st.reverse.foldl (filepath.cleanStep r) [] = st := by
  induction st with
  | nil => rfl
  | cons c s ih =>
    rw [List.reverse_cons, List.foldl_append, ih (cleanStack_tail h)]
    simp only [List.foldl_cons, List.foldl_nil]
    exact cleanStep_push r s c h.1 h.2.1

theorem cleanStack_stack (path : String) :
    cleanStack (filepath.IsAbs path)
      ((splitOn '/' path.data).foldl (filepath.cleanStep (filepath.IsAbs path)) []) :=
  foldl_cleanStack _ _ (splitOn_no_sep '/' path.data) [] trivial

theorem cleanStack_reverse_no_sep {r : Bool} {st : List (List Char)} (h : cleanStack r st) :
    ∀ c ∈ st.reverse, '/' ∉ c := by
  induction st with
  | nil => simp
  | cons c s ih =>
    intro d hd
    rw [List.reverse_cons, List.mem_append] at hd
    rcases hd with hd | hd
    · exact ih (cleanStack_tail h) d hd
    · rw [List.mem_singleton] at hd
      rw [hd]; exact h.1.2.2

theorem Clean_eq (x : String) (hx : x ≠ "") :
    filepath.Clean x =
      if filepath.IsAbs x = true then "/" ++ String.mk (List.intercalate ['/'] (filepath.elems x))
      else if filepath.elems x = [] then "."
      else String.mk (List.intercalate ['/'] (filepath.elems x)) := by
  simp only [filepath.Clean, if_neg hx, filepath.elems, filepath.IsAbs, List.reverse_eq_nil_iff]

theorem cleanStack_plain {r : Bool} {st : List (List Char)} (h : cleanStack r st) :
    ∀ c ∈ st, plainElem c := by
  induction st with
  | nil => simp
  | cons d s ih =>
    intro c hc
    rcases List.mem_cons.1 hc with rfl | hc
    · exact h.1
    · exact ih (cleanStack_tail h) c hc

/-- The elements of a rooted cleaned path, read back. -/
theorem elems_of_rooted (l : List (List Char)) (h : cleanStack true l.reverse) :
    filepath.elems ("/" ++ String.mk (List.intercalate ['/'] l)) = l := by
  have hno : ∀ c ∈ l, '/' ∉ c := by
    have := cleanStack_reverse_no_sep h
    simpa using this
  have habs : filepath.IsAbs ("/" ++ String.mk (List.intercalate ['/'] l)) = true := by
    simp [filepath.IsAbs, String.data_append]
  have hdata : ("/" ++ String.mk (List.intercalate ['/'] l)).data
      = '/' :: List.intercalate ['/'] l := by
    simp [String.data_append]
  unfold filepath.elems
  rw [habs, hdata]
  have hsplit : splitOn '/' ('/' :: List.intercalate ['/'] l)
      = [] :: splitOn '/' (List.intercalate ['/'] l) := by
    simp [splitOn]
  rw [hsplit, List.foldl_cons]
  have hskip : filepath.cleanStep true [] [] = [] := by simp [filepath.cleanStep]
  rw [hskip]
  cases l with
  | nil => simp [List.intercalate, splitOn, filepath.cleanStep]
  | cons a rest =>
    rw [splitOn_intercalate '/' (a :: rest) (by simp) hno]
    have := foldl_rebuild true (a :: rest).reverse h
    rw [List.reverse_reverse] at this
    rw [this, List.reverse_reverse]

theorem elems_of_unrooted (l : List (List Char)) (hne : l ≠ [])
    (h : cleanStack false l.reverse) :
    filepath.IsAbs (String.mk (List.intercalate ['/'] l)) = false ∧
    filepath.elems (String.mk (List.intercalate ['/'] l)) = l := by
  have hno : ∀ c ∈ l, '/' ∉ c := by
    have := cleanStack_reverse_no_sep h
    simpa using this
  have habs : filepath.IsAbs (String.mk (List.intercalate ['/'] l)) = false := by
    cases l with
    | nil => exact absurd rfl hne
    | cons a rest =>
      have ha : '/' ∉ a := hno a (by simp)
      have hplain : ∀ c ∈ (a :: rest), plainElem c := fun c hc =>
        cleanStack_plain h c (List.mem_reverse.2 hc)
      have han : a ≠ [] := (hplain a (by simp)).1
      cases a with
      | nil => exact absurd rfl han
      | cons ch a' =>
        have hch : ch ≠ '/' := fun e => ha (by simp [e])
        cases rest with
        | nil => simp [filepath.IsAbs, intercalate_single, hch]
        | cons b rest2 => simp [filepath.IsAbs, intercalate_cons_cons, hch]
  refine ⟨habs, ?_⟩
  unfold filepath.elems
  rw [habs]
  show (List.foldl (filepath.cleanStep false) [] (splitOn '/' (List.intercalate ['/'] l))).reverse
    = l
  rw [splitOn_intercalate '/' l hne hno]
  have := foldl_rebuild false l.reverse h
  rw [List.reverse_reverse] at this
  rw [this, List.reverse_reverse]

/-- The cleaned path of a path is rooted when the path is, and has the
elements of the path. -/
theorem Clean_elems (x : String) (hx : x ≠ "") :
    filepath.IsAbs (filepath.Clean x) = filepath.IsAbs x ∧
    filepath.elems (filepath.Clean x) = filepath.elems x := by
  have hst := cleanStack_stack x
  have hrev : cleanStack (filepath.IsAbs x) (filepath.elems x).reverse := by
    unfold filepath.elems
    rw [List.reverse_reverse]
    exact hst
  rw [Clean_eq x hx]
  cases hr : filepath.IsAbs x with
  | true =>
    rw [hr] at hrev
    simp only [if_true]
    refine ⟨?_, elems_of_rooted _ hrev⟩
    simp [filepath.IsAbs, String.data_append]
  | false =>
    rw [hr] at hrev
    simp only [Bool.false_eq_true, if_false]
    by_cases he : filepath.elems x = []
    · rw [if_pos he, he]
      exact ⟨by decide, by decide⟩
    · rw [if_neg he]
      exact elems_of_unrooted _ he hrev

/-- The elements of a file named `name` in directory `t`. -/
theorem elems_child (t : String) (ht : t ≠ "") (name : List Char) (hp : plainElem name)
    (hd : name ≠ ['.', '.']) :
    filepath.IsAbs (t ++ String.mk ('/' :: name)) = filepath.IsAbs t ∧
    filepath.elems (t ++ String.mk ('/' :: name)) = filepath.elems t ++ [name] := by
  have habs : filepath.IsAbs (t ++ String.mk ('/' :: name)) = filepath.IsAbs t := by
    have : t.data ≠ [] := fun e => ht (by
      cases t
      simp_all)
    cases hdat : t.data with
    | nil => exact absurd hdat this
    | cons c cs => simp [filepath.IsAbs, String.data_append, hdat]
  refine ⟨habs, ?_⟩
  unfold filepath.elems
  rw [habs, String.data_append, splitOn_append, splitOn_of_not_mem _ _ hp.2.2,
    List.foldl_append, List.foldl_cons, List.foldl_nil,
    cleanStep_push _ _ name hp (fun e => absurd e hd), List.reverse_cons]

/-- The two files `Fill` names in the workspace `t` lie below `t`. -/
theorem under_child (t : String) (ht : t ≠ "") (name : List Char) (hp : plainElem name)
    (hd : name ≠ ['.', '.']) :
    under t (filepath.Clean (t ++ String.mk ('/' :: name))) = true := by
  have hx : t ++ String.mk ('/' :: name) ≠ "" := by
    intro h
    have := congrArg String.data h
    simp at this
  obtain ⟨h1, h2⟩ := Clean_elems _ hx
  obtain ⟨h3, h4⟩ := elems_child t ht name hp hd
  unfold under
  rw [h1, h2, h3, h4]
  have hpre : (filepath.elems t).isPrefixOf (filepath.elems t ++ [name]) = true := by
    rw [List.isPrefixOf_iff_prefix]
    exact List.prefix_append _ _
  have hdd : ['.', '.'] ≠ name := fun e => hd e.symm
  simp [ht, hpre, hdd]

theorem under_data (t : String) (ht : t ≠ "") :
    under t (filepath.Clean (t ++ "/data.fdf")) = true :=
  under_child t ht "data.fdf".data ⟨by decide, by decide, by decide⟩ (by decide)

theorem under_output (t : String) (ht : t ≠ "") :
    under t (filepath.Clean (t ++ "/output.pdf")) = true :=
  under_child t ht "output.pdf".data ⟨by decide, by decide, by decide⟩ (by decide)

/-- Under the environment facts on the workspace, the error `Fill` returns
is the one the specification's order of steps gives. -/
theorem Fill_firstFailure (o : Env) (form : Form) (src dst : String) (options : List Options)
    (w : World)
    (hfresh : ∀ d t, filepath.Abs o dst = .ok d → o.tempDir = .ok t →
      Fresh w.fs t ∧ ¬ scratchPath t d) :
    (Fill o form src dst options w).1 = firstFailure o w src dst options := by
  rcases Fill_cases o form src dst options w with
    ⟨e, he, h⟩ | ⟨s, e, hs, he, h⟩ | ⟨s, d, e, hs, hd, he, h⟩ | ⟨s, d, hs, hd, hstat, he, h⟩ |
    ⟨s, d, e, hs, hd, hstat, hsrc, he, h⟩ | ⟨s, d, t, hs, hd, hstat, hsrc, ht⟩
  · rw [h]; simp [firstFailure, he]
  · rw [h]; simp [firstFailure, hs, he]
  · rw [h]; simp [firstFailure, hs, hd, he]
  · rw [h]; simp [firstFailure, hs, hd, hstat, he]
  · have hsn : (w.fs s).isNone = false := by
      cases hx : w.fs s with
      | none => exact absurd hx hsrc
      | some _ => rfl
    rw [h]; simp [firstFailure, hs, hd, hstat, hsn, he]
  · have hsn : (w.fs s).isNone = false := by
      cases hx : w.fs s with
      | none => exact absurd hx hsrc
      | some _ => rfl
    obtain ⟨hf, hns⟩ := hfresh d t hd ht
    obtain ⟨hu, hdt, h1, h2⟩ := not_scratch_elim hns
    have hw1 : ({ fs := w.fs.set t (some Node.dir), events := w.events } : World).fs d
        = w.fs d := by simp [FS.set, hdt]
    have hnew : ∀ c, ({ fs := w.fs.set t (some Node.dir), events := w.events } : World).fs
        (filepath.Clean (t ++ "/output.pdf")) ≠ some (Node.file c) := by
      intro c
      simp only [FS.set]
      split
      · simp
      · rw [hf _ (Or.inr (Or.inr rfl))]
        simp
    rw [Fill_reached o form src dst options w s d t hs hd hstat hsrc ht]
    simp only [firstFailure, hs, hd, hstat, hsn, ht, Bool.false_eq_true, if_false]
    rcases inWorkspace_cases o form s d (effectiveOptions options) t
        { fs := w.fs.set t (some Node.dir), events := w.events } with
      ⟨e, he, h⟩ | ⟨e, n, hc, he, h⟩ | ⟨e, hc, hfl, he, h⟩ | ⟨hc, hfl, hen, h⟩
    · rw [h]; simp [he]
    · rw [h]; simp [hc, he]
    · rw [h]; simp [hc, hfl, he]
    · rw [h]
      simp only [hc, hfl, hen]
      have hw2 : (afterEngine o form s (effectiveOptions options) t
          { fs := w.fs.set t (some Node.dir), events := w.events }).fs d = w.fs d :=
        (afterEngine_fs_ne o form s _ t _ d h1 h2).trans hw1
      rcases finalize_cases o (filepath.Clean (t ++ "/output.pdf")) d
          (effectiveOptions options)
          (afterEngine o form s (effectiveOptions options) t
            { fs := w.fs.set t (some Node.dir), events := w.events }) with
        ⟨e, he, h⟩ | ⟨hst, hx, hov, h⟩ | ⟨e, hst, hx, hov, he, h⟩ | ⟨hst, hrm, h⟩
      · rw [h]; simp [he]
      · rw [hw2] at hx
        have hsome : (w.fs d).isSome = true := by
          cases hy : w.fs d with
          | none => exact absurd hy hx
          | some _ => rfl
        rw [h]; simp [hst, hsome, hov]
      · rw [hw2] at hx
        have hsome : (w.fs d).isSome = true := by
          cases hy : w.fs d with
          | none => exact absurd hy hx
          | some _ => rfl
        rw [h]; simp [hst, hsome, hov, he]
      · rw [hw2] at hrm
        have hpre : ∀ rest : Option String,
            (if ((w.fs d).isSome && !(effectiveOptions options).Overwrite) = true then
                some ("destination PDF file already exists: '" ++ d ++ "'")
              else
                match (if (w.fs d).isSome = true then o.removeErr else none) with
                | some e => some ("failed to remove destination PDF file: " ++ e)
                | none => rest) = rest := by
          intro rest
          cases hy : w.fs d with
          | none => simp
          | some n =>
            obtain ⟨hov, hr⟩ := hrm (by simp [hy])
            simp [hov, hr]
        have hout : (afterRemove d (afterEngine o form s (effectiveOptions options) t
            { fs := w.fs.set t (some Node.dir), events := w.events })).fs
              (filepath.Clean (t ++ "/output.pdf"))
            = match o.engineOut with
              | some bytes => some (Node.file bytes)
              | none => ({ fs := w.fs.set t (some Node.dir), events := w.events } : World).fs
                  (filepath.Clean (t ++ "/output.pdf")) := by
          rw [afterRemove_fs_ne d _ _ (Ne.symm h2), afterEngine_fs_out]
        rw [h]
        simp only [hst]
        rw [hpre]
        rcases copyFile_cases o (filepath.Clean (t ++ "/output.pdf")) d
            (afterRemove d (afterEngine o form s (effectiveOptions options) t
              { fs := w.fs.set t (some Node.dir), events := w.events })) with
          ⟨e, he, hcp⟩ | ⟨e, l, he, hcp⟩ | ⟨c, he, hfile, hcp⟩ | ⟨he, hnofile, hcp⟩
        · rw [hcp]; simp [he]
        · rw [hcp]; simp [he]
        · rw [hcp]
          rw [hout] at hfile
          cases ho : o.engineOut with
          | none => rw [ho] at hfile; exact absurd hfile (hnew c)
          | some bytes => simp [he]
        · rw [hcp]
          cases ho : o.engineOut with
          | none => simp [he]
          | some bytes =>
            rw [hout, ho] at hnofile
            exact absurd rfl (hnofile bytes)

/-- A run in which every step succeeds and a destination exists: what `Fill`
returns and leaves at the destination, by the effective Overwrite. -/
theorem Fill_allOK (o : Env) (form : Form) (src dst : String) (options : List Options)
    (w : World) (s d t bytes : String) (n : Node)
    (hs : filepath.Abs o src = .ok s) (hd : filepath.Abs o dst = .ok d)
    (hstat : o.statErr s = none) (hsrc : w.fs s ≠ none) (ht : o.tempDir = .ok t)
    (hc : o.createErr = none) (hf : o.flushErr = none) (he : o.engineErr = none)
    (ho : o.engineOut = some bytes) (hstd : o.statErr d = none) (hr : o.removeErr = none)
    (hcp : o.copyErr = none) (hex : w.fs d = some n) (hfresh : Fresh w.fs t) :
    (Fill o form src dst options w).1
      = (if (effectiveOptions options).Overwrite then none
         else some ("destination PDF file already exists: '" ++ d ++ "'")) ∧
    (Fill o form src dst options w).2.fs d
      = (if (effectiveOptions options).Overwrite then some (Node.file bytes) else some n) := by
  obtain ⟨hu, hdt, h1, h2⟩ := not_scratch_elim (not_scratch_of_exists hfresh hex)
  have hw2 : (afterEngine o form s (effectiveOptions options) t
      { fs := w.fs.set t (some Node.dir), events := w.events }).fs d = some n := by
    rw [afterEngine_fs_ne o form s _ t _ d h1 h2]
    simp [FS.set, hdt, hex]
  have hcl : ∀ w2 : World, (Fill.cleanup o t w2).fs d = w2.fs d := by
    intro w2
    simp [cleanup_fs, hu]
  rw [Fill_reached o form src dst options w s d t hs hd hstat hsrc ht]
  rcases inWorkspace_cases o form s d (effectiveOptions options) t
      { fs := w.fs.set t (some Node.dir), events := w.events } with
    ⟨e, h, _⟩ | ⟨e, k, _, h, _⟩ | ⟨e, _, _, h, _⟩ | ⟨_, _, _, h⟩
  · rw [hc] at h; cases h
  · rw [hf] at h; cases h
  · rw [he] at h; cases h
  · rw [h]
    rcases finalize_cases o (filepath.Clean (t ++ "/output.pdf")) d (effectiveOptions options)
        (afterEngine o form s (effectiveOptions options) t
          { fs := w.fs.set t (some Node.dir), events := w.events }) with
      ⟨e, hx, _⟩ | ⟨_, _, hov, hfin⟩ | ⟨e, _, _, _, hx, _⟩ | ⟨_, hrm, hfin⟩
    · rw [hstd] at hx; cases hx
    · rw [hfin]
      refine ⟨?_, ?_⟩
      · simp [hov]
      · simp only [hov, Bool.false_eq_true, if_false, hcl]
        exact hw2
    · rw [hr] at hx; cases hx
    · obtain ⟨hov, _⟩ := hrm (by simp [hw2])
      rw [hfin]
      have hout : (afterRemove d (afterEngine o form s (effectiveOptions options) t
          { fs := w.fs.set t (some Node.dir), events := w.events })).fs
            (filepath.Clean (t ++ "/output.pdf")) = some (Node.file bytes) := by
        rw [afterRemove_fs_ne d _ _ (Ne.symm h2), afterEngine_fs_out, ho]
      rcases copyFile_cases o (filepath.Clean (t ++ "/output.pdf")) d
          (afterRemove d (afterEngine o form s (effectiveOptions options) t
            { fs := w.fs.set t (some Node.dir), events := w.events })) with
        ⟨e, hx, _⟩ | ⟨e, l, hx, _⟩ | ⟨c, _, hfile, hcopy⟩ | ⟨_, hnofile, _⟩
      · rw [hcp] at hx; cases hx
      · rw [hcp] at hx; cases hx
      · rw [hout] at hfile
        simp only [Option.some.injEq, Node.file.injEq] at hfile
        rw [hcopy]
        refine ⟨?_, ?_⟩
        · simp [hov]
        · simp only [hov, if_true, hcl]
          simp [FS.set, hfile]
      · exact absurd hout (hnofile bytes)

/-- When the data document is written, `Fill` records one engine run, with
the arguments of the effective Flatten. -/
theorem Fill_run_event (o : Env) (form : Form) (src dst : String) (options : List Options)
    (w : World) (s d t : String)
    (hs : filepath.Abs o src = .ok s) (hd : filepath.Abs o dst = .ok d)
    (hstat : o.statErr s = none) (hsrc : w.fs s ≠ none) (ht : o.tempDir = .ok t)
    (hc : o.createErr = none) (hf : o.flushErr = none) :
    ∃ post, (Fill o form src dst options w).2.events
        = w.events ++ Event.close (filepath.Clean (t ++ "/data.fdf"))
          :: Event.run t "java" (engineArgs s t (effectiveOptions options).Flatten) :: post ∧
      ∀ dir name args, Event.run dir name args ∉ post := by
  rw [Fill_reached o form src dst options w s d t hs hd hstat hsrc ht]
  obtain ⟨post, hp1, hp2⟩ := inWorkspace_events o form s d (effectiveOptions options) t
    { fs := w.fs.set t (some Node.dir), events := w.events } hc hf
  refine ⟨post ++ cleanupEvents o t, ?_, ?_⟩
  · rw [cleanup_events, hp1]
    simp
  · intro dir name args hmem
    rcases List.mem_append.1 hmem with h | h
    · rcases hp2 _ h with h | h <;> cases h
    · rcases mem_cleanupEvents o t _ h with h | ⟨_, h⟩ <;> cases h

theorem not_scratch_out : ¬ scratchPath "/tmp/fillpdf-123" "/home/u/out.pdf" := by
  unfold scratchPath; decide

/-! ## Lemmas on value texts -/

theorem digitChar_isDigit (d : Nat) (h : d < 10) : (Nat.digitChar d).isDigit = true := by
  interval_cases d <;> rfl

theorem toDigitsCore_isDigit (fuel : Nat) : ∀ (n : Nat) (acc : List Char),
    (∀ c ∈ acc, c.isDigit = true) → ∀ c ∈ Nat.toDigitsCore 10 fuel n acc, c.isDigit = true := by
  induction fuel with
  | zero => intro n acc h; simpa [Nat.toDigitsCore] using h
  | succ f ih =>
    intro n acc h
    have hd : (Nat.digitChar (n % 10)).isDigit = true :=
      digitChar_isDigit _ (Nat.mod_lt _ (by decide))
    have hacc : ∀ c ∈ Nat.digitChar (n % 10) :: acc, c.isDigit = true := by
      intro c hc
      rcases List.mem_cons.1 hc with rfl | hc
      · exact hd
      · exact h c hc
    simp only [Nat.toDigitsCore]
    split
    · exact hacc
    · exact ih _ _ hacc

theorem toDigits_isDigit (n : Nat) : ∀ c ∈ Nat.toDigits 10 n, c.isDigit = true :=
  toDigitsCore_isDigit _ _ _ (by simp)

theorem fieldLine_newlineFree (form : Form) (hv : NewlineFree form) :
    ∀ l ∈ form.map fieldLine, Char.ofNat 10 ∉ l.data := by
  intro l hl
  obtain ⟨e, he, rfl⟩ := List.mem_map.1 hl
  obtain ⟨h1, h2⟩ := hv e he
  simp only [fieldLine, String.data_append, List.mem_append, not_or]
  exact ⟨⟨⟨⟨by decide, h1⟩, by decide⟩, h2⟩, by decide⟩

theorem headerLines_newlineFree : ∀ l ∈ headerLines, Char.ofNat 10 ∉ l.data := by decide

theorem footerLines_newlineFree : ∀ l ∈ footerLines, Char.ofNat 10 ∉ l.data := by decide

/-! ## C1, C2: the encoded document -/

/-- C1: when the file can be created and written, `createFdfFile` returns nil
and the file at `path` holds exactly the five header lines, then one line
`<< /T (name) /V (value text)>>` per Form entry in the order of the loop, then
the nine footer lines, every line terminated by a newline and name and value
text verbatim; for the empty Form the header is followed at once by the
footer. -/
theorem createFdfFile_writes_exact_document (o : Env) (form : Form) (path : String) (w : World)
    (hc : o.createErr = none) (hf : o.flushErr = none) :
    (createFdfFile o form path w).1 = none ∧
    (createFdfFile o form path w).2.fs path
      = some (Node.file (unlines
          (["%FDF-1.2", "%,,oe\"", "1 0 obj", "<<", "/FDF << /Fields ["]
            ++ form.map (fun e => "<< /T (" ++ e.1 ++ ") /V (" ++ fmt.Sprintf_v e.2 ++ ")>>")
            ++ ["]", ">>", ">>", "endobj", "trailer", "<<", "/Root 1 0 R", ">>", "%%EOF"]))) ∧
    (createFdfFile o [] path w).2.fs path
      = some (Node.file (unlines
          (["%FDF-1.2", "%,,oe\"", "1 0 obj", "<<", "/FDF << /Fields ["]
            ++ ["]", ">>", ">>", "endobj", "trailer", "<<", "/Root 1 0 R", ">>", "%%EOF"]))) := by
  refine ⟨?_, ?_, ?_⟩
  · rw [createFdfFile_ok o form path w hc hf]
  · rw [createFdfFile_ok o form path w hc hf]
    simp [FS.set, fdfDocument, headerLines, footerLines]
    rfl
  · rw [createFdfFile_ok o [] path w hc hf]
    simp [FS.set, fdfDocument, headerLines, footerLines]

/-- C1 at a form whose name and value contain parentheses and a backslash:
they reach the file unescaped. -/
theorem createFdfFile_writes_exact_document_witness :
    (createFdfFile envOK [("a(b", .str "c\\)d")] "/tmp/x/data.fdf" worldDemo).1 = none ∧
    (createFdfFile envOK [("a(b", .str "c\\)d")] "/tmp/x/data.fdf" worldDemo).2.fs "/tmp/x/data.fdf"
      = some (Node.file ("%FDF-1.2\n%,,oe\"\n1 0 obj\n<<\n/FDF << /Fields [\n"
          ++ "<< /T (a(b) /V (c\\)d)>>\n"
          ++ "]\n>>\n>>\nendobj\ntrailer\n<<\n/Root 1 0 R\n>>\n%%EOF\n")) :=
  have h := createFdfFile_writes_exact_document envOK [("a(b", .str "c\\)d")] "/tmp/x/data.fdf"
    worldDemo rfl rfl
  ⟨h.1, h.2.1.trans (by decide)⟩

/-- C2: for a Form with N entries the document `createFdfFile` writes is the
header block, then exactly N field records, then the footer block; the i-th
record is `<< /T (name) /V (text)>>` and a newline for the i-th entry, name
and text verbatim, where the text of a string is the string, of a boolean
`true` or `false`, and of an integer its decimal digits (after a minus sign
if it is negative).  When no name and no value text contains a newline, these
records are lines: the document splits at newlines into the five header
lines, exactly N field lines and the nine footer lines. -/
theorem createFdfFile_field_lines (o : Env) (form : Form) (path : String) (w : World)
    (hc : o.createErr = none) (hf : o.flushErr = none) :
    (∃ doc fields,
      (createFdfFile o form path w).2.fs path = some (Node.file doc) ∧
      doc = unlines headerLines ++ unlines fields ++ unlines footerLines ∧
      fields.length = form.length ∧
      (∀ i (h : i < form.length), fields[i]? =
        some ("<< /T (" ++ form[i].1 ++ ") /V (" ++ fmt.Sprintf_v form[i].2 ++ ")>>")) ∧
      (NewlineFree form → lines doc = headerLines ++ fields ++ footerLines ++ [""])) ∧
    (∀ s, fmt.Sprintf_v (.str s) = s) ∧
    fmt.Sprintf_v (.bool true) = "true" ∧ fmt.Sprintf_v (.bool false) = "false" ∧
    (∀ n : Nat, fmt.Sprintf_v (.int n) = String.mk (Nat.toDigits 10 n)) ∧
    (∀ n : Nat, fmt.Sprintf_v (.int (Int.negSucc n)) = "-" ++ String.mk (Nat.toDigits 10 (n + 1))) ∧
    (∀ n : Nat, ∀ c ∈ Nat.toDigits 10 n, c.isDigit = true) := by
  refine ⟨⟨fdfDocument form, form.map fieldLine, ?_, ?_, ?_, ?_, ?_⟩, fun _ => rfl, rfl, rfl,
    fun _ => rfl, fun _ => rfl, toDigits_isDigit⟩
  · rw [createFdfFile_ok o form path w hc hf]
    simp [FS.set]
  · simp only [fdfDocument, unlines_append]
  · simp
  · intro i h
    simp [fieldLine, h]
  · intro hv
    unfold fdfDocument
    rw [lines_unlines]
    intro l hl
    rcases List.mem_append.1 hl with hl | hl
    · rcases List.mem_append.1 hl with hl | hl
      · exact headerLines_newlineFree l hl
      · exact fieldLine_newlineFree form hv l hl
    · exact footerLines_newlineFree l hl

/-- C2 at the form `{"name": "Alice", "age": 30}`, in both orders of
iteration: exactly two field lines, `/T (name) /V (Alice)` and
`/T (age) /V (30)`. -/
theorem createFdfFile_field_lines_witness :
    (∃ doc, (createFdfFile envOK formAlice "/tmp/x/data.fdf" worldDemo).2.fs "/tmp/x/data.fdf"
        = some (Node.file doc) ∧
      lines doc = headerLines ++ ["<< /T (name) /V (Alice)>>", "<< /T (age) /V (30)>>"]
        ++ footerLines ++ [""]) ∧
    (∃ doc, (createFdfFile envOK formAliceRev "/tmp/x/data.fdf" worldDemo).2.fs "/tmp/x/data.fdf"
        = some (Node.file doc) ∧
      lines doc = headerLines ++ ["<< /T (age) /V (30)>>", "<< /T (name) /V (Alice)>>"]
        ++ footerLines ++ [""]) := by
  constructor
  · obtain ⟨⟨doc, fields, h1, _, h3, h4, h5⟩, _⟩ :=
      createFdfFile_field_lines envOK formAlice "/tmp/x/data.fdf" worldDemo rfl rfl
    refine ⟨doc, h1, ?_⟩
    have e : fields = ["<< /T (name) /V (Alice)>>", "<< /T (age) /V (30)>>"] := by
      apply List.ext_getElem?
      intro i
      match i with
      | 0 => rw [h4 0 (by decide)]; decide
      | 1 => rw [h4 1 (by decide)]; decide
      | n + 2 =>
        rw [List.getElem?_eq_none (by rw [h3]; simp [formAlice])]
        rfl
    rw [h5 (by unfold NewlineFree; decide), e]
  · obtain ⟨⟨doc, fields, h1, _, h3, h4, h5⟩, _⟩ :=
      createFdfFile_field_lines envOK formAliceRev "/tmp/x/data.fdf" worldDemo rfl rfl
    refine ⟨doc, h1, ?_⟩
    have e : fields = ["<< /T (age) /V (30)>>", "<< /T (name) /V (Alice)>>"] := by
      apply List.ext_getElem?
      intro i
      match i with
      | 0 => rw [h4 0 (by decide)]; decide
      | 1 => rw [h4 1 (by decide)]; decide
      | n + 2 =>
        rw [List.getElem?_eq_none (by rw [h3]; simp [formAliceRev])]
        rfl
    rw [h5 (by unfold NewlineFree; decide), e]

/-! ## C3-C10: `Fill` -/

/-- C3 (as amended): if both paths resolve to absolute form and the existence
check finds no file at the absolute source path, `Fill` returns an error whose
message contains "does not exist" and leaves the filesystem, the destination
included, exactly as it was; it makes no call that is recorded. -/
theorem Fill_missing_source (o : Env) (form : Form) (formPDFFile destPDFFile : String)
    (options : List Options) (w : World) (s d : String)
    (hs : filepath.Abs o formPDFFile = .ok s) (hd : filepath.Abs o destPDFFile = .ok d)
    (hstat : o.statErr s = none) (hno : w.fs s = none) :
    (∃ msg, (Fill o form formPDFFile destPDFFile options w).1 = some msg
      ∧ mentions msg "does not exist") ∧
    (Fill o form formPDFFile destPDFFile options w).2.fs = w.fs ∧
    (Fill o form formPDFFile destPDFFile options w).2.events = w.events := by
  have h : Fill o form formPDFFile destPDFFile options w
      = (some ("form PDF file does not exist: '" ++ s ++ "'"), w) := by
    simp [Fill, hs, hd, exists_, hstat, hno]
  rw [h]
  refine ⟨⟨_, rfl, ?_⟩, rfl, rfl⟩
  exact ⟨"form PDF file ".data, (": '" ++ s ++ "'").data, by simp [String.data_append]⟩

/-- C3 (as amended) at the source path `/no/such.pdf`. -/
theorem Fill_missing_source_witness :
    (∃ msg, (Fill envOK formAlice "/no/such.pdf" "out.pdf" [] worldDemo).1 = some msg
      ∧ mentions msg "does not exist") ∧
    (Fill envOK formAlice "/no/such.pdf" "out.pdf" [] worldDemo).2.fs = fsDemo ∧
    (Fill envOK formAlice "/no/such.pdf" "out.pdf" [] worldDemo).2.events = [] :=
  Fill_missing_source envOK formAlice "/no/such.pdf" "out.pdf" [] worldDemo "/no/such.pdf"
    "/home/u/out.pdf" rfl rfl rfl (by decide)

set_option maxRecDepth 100000 in
/-- C3 as stated fails: with no file at the absolute source `/no/such.pdf`, a
relative destination and a working directory that cannot be determined,
`Fill` returns the path-resolution error, which does not contain
"does not exist". -/
theorem Fill_missing_source_unresolved_destination :
    filepath.Abs envNoCwd "/no/such.pdf" = .ok "/no/such.pdf" ∧
    envNoCwd.statErr "/no/such.pdf" = none ∧ fsEmpty "/no/such.pdf" = none ∧
    (Fill envNoCwd [] "/no/such.pdf" "out.pdf" [] { fs := fsEmpty, events := [] }).1
      = some "failed to create the absolute path: getwd: no such file or directory" ∧
    ¬ mentions "failed to create the absolute path: getwd: no such file or directory"
      "does not exist" :=
  ⟨rfl, rfl, rfl, by decide, by decide⟩

/-- C4: when a file exists at the (absolute) destination path and the
effective Overwrite is false, `Fill` returns an error whatever the earlier
stages do, the destination holds what it held before, and `Fill` applies
neither `os.Remove` nor `copyFile` to anything. -/
theorem Fill_no_overwrite (o : Env) (form : Form) (formPDFFile destPDFFile : String)
    (options : List Options) (w : World) (d : String) (n : Node)
    (hov : (effectiveOptions options).Overwrite = false)
    (hd : filepath.Abs o destPDFFile = .ok d) (hex : w.fs d = some n)
    (hfresh : ∀ t, o.tempDir = .ok t → Fresh w.fs t) :
    (Fill o form formPDFFile destPDFFile options w).1 ≠ none ∧
    (Fill o form formPDFFile destPDFFile options w).2.fs d = some n ∧
    ∃ new, (Fill o form formPDFFile destPDFFile options w).2.events = w.events ++ new ∧
      (∀ p, Event.remove p ∉ new) ∧ (∀ src p, Event.copy src p ∉ new) := by
  rcases Fill_cases o form formPDFFile destPDFFile options w with
    ⟨e, _, h⟩ | ⟨s, e, _, _, h⟩ | ⟨s, d', e, _, _, _, h⟩ | ⟨s, d', _, _, _, _, h⟩ |
    ⟨s, d', e, _, _, _, _, _, h⟩ | ⟨s, d', t, hs, hd', hstat, hsrc, ht⟩
  · rw [h]; exact ⟨by simp, hex, [], by simp, by simp, by simp⟩
  · rw [h]; exact ⟨by simp, hex, [], by simp, by simp, by simp⟩
  · rw [h]; exact ⟨by simp, hex, [], by simp, by simp, by simp⟩
  · rw [h]; exact ⟨by simp, hex, [], by simp, by simp, by simp⟩
  · rw [h]; exact ⟨by simp, hex, [], by simp, by simp, by simp⟩
  · have hdd : d' = d := by rw [hd] at hd'; cases hd'; rfl
    subst hdd
    obtain ⟨hu, hdt, h1, h2⟩ := not_scratch_elim (not_scratch_of_exists (hfresh t ht) hex)
    have hex1 : ({ fs := w.fs.set t (some Node.dir), events := w.events } : World).fs d'
        = some n := by simp [FS.set, hdt, hex]
    obtain ⟨r1, r2, new, r3, r4, r5⟩ := inWorkspace_no_overwrite o form s d'
      (effectiveOptions options) t _ n hov hex1 h1 h2
    rw [Fill_reached o form formPDFFile destPDFFile options w s d' t hs hd hstat hsrc ht]
    refine ⟨r1, ?_, ?_⟩
    · simp only [cleanup_fs, hu]
      simpa using r2
    · refine ⟨new ++ cleanupEvents o t, ?_, ?_, ?_⟩
      · rw [cleanup_events, r3, List.append_assoc]
      · intro p hp
        rcases List.mem_append.1 hp with hp | hp
        · exact r4 p hp
        · rcases mem_cleanupEvents o t _ hp with h | ⟨_, h⟩ <;> cases h
      · intro src p hp
        rcases List.mem_append.1 hp with hp | hp
        · exact r5 src p hp
        · rcases mem_cleanupEvents o t _ hp with h | ⟨_, h⟩ <;> cases h

/-- C4 on a run in which everything up to the destination check succeeds:
`Fill` returns the conflict error and `/home/u/out.pdf` still holds `old`. -/
theorem Fill_no_overwrite_witness :
    (Fill envOK formAlice "in.pdf" "out.pdf" [{ Overwrite := false, Flatten := true }]
        worldDemo).1
      = some "destination PDF file already exists: '/home/u/out.pdf'" ∧
    (Fill envOK formAlice "in.pdf" "out.pdf" [{ Overwrite := false, Flatten := true }]
        worldDemo).2.fs "/home/u/out.pdf"
      = some (Node.file "old") :=
  have h := Fill_no_overwrite envOK formAlice "in.pdf" "out.pdf"
    [{ Overwrite := false, Flatten := true }] worldDemo "/home/u/out.pdf" (Node.file "old")
    rfl rfl (by decide)
    (fun t ht => by
      have e : t = "/tmp/fillpdf-123" := by
        simp only [envOK, Except.ok.injEq] at ht
        exact ht.symm
      subst e
      exact fresh_demo)
  ⟨by decide, h.2.1⟩

/-- C5: when a file exists at the destination, the effective Overwrite is
true and `Fill` returns nil, the destination is a file holding exactly the
bytes the engine wrote to `output.pdf`; nothing of the previous content is
left. -/
theorem Fill_overwrite_replaces (o : Env) (form : Form) (formPDFFile destPDFFile : String)
    (options : List Options) (w : World) (d : String) (n : Node)
    (hov : (effectiveOptions options).Overwrite = true)
    (hd : filepath.Abs o destPDFFile = .ok d) (hex : w.fs d = some n)
    (hfresh : ∀ t, o.tempDir = .ok t → Fresh w.fs t)
    (hnil : (Fill o form formPDFFile destPDFFile options w).1 = none) :
    ∃ bytes, o.engineOut = some bytes ∧
      (Fill o form formPDFFile destPDFFile options w).2.fs d = some (Node.file bytes) :=
  have _ := hov
  Fill_success o form formPDFFile destPDFFile options w d hd
    (fun t ht => ⟨hfresh t ht, not_scratch_of_exists (hfresh t ht) hex⟩) hnil

/-- C5 on a run that replaces the old `/home/u/out.pdf`. -/
theorem Fill_overwrite_replaces_witness :
    worldDemo.fs "/home/u/out.pdf" = some (Node.file "old") ∧
    (Fill envOK formAlice "in.pdf" "out.pdf" [] worldDemo).1 = none ∧
    (Fill envOK formAlice "in.pdf" "out.pdf" [] worldDemo).2.fs "/home/u/out.pdf"
      = some (Node.file "%PDF-filled") := by
  refine ⟨by decide, by decide, ?_⟩
  obtain ⟨bytes, h1, h2⟩ := Fill_overwrite_replaces envOK formAlice "in.pdf" "out.pdf" []
    worldDemo "/home/u/out.pdf" (Node.file "old") rfl rfl (by decide)
    (fun t ht => by
      have e : t = "/tmp/fillpdf-123" := by
        simp only [envOK, Except.ok.injEq] at ht
        exact ht.symm
      subst e
      exact fresh_demo)
    (by decide)
  have e : bytes = "%PDF-filled" := by
    simp only [envOK, Option.some.injEq] at h1
    exact h1.symm
  rw [h2, e]

/-- C6: when `Fill` reaches the subprocess step (both paths resolve, the
source exists, the workspace `t` is created and the data document is written),
it runs the engine exactly once, as `java` in `t`, with the arguments `-jar
mcpdf.jar fill_form <absolute source> data <t>/data.fdf output
<t>/output.pdf`, followed by the single argument `flatten` if and only if the
effective Flatten is true. -/
theorem Fill_engine_arguments (o : Env) (form : Form) (formPDFFile destPDFFile : String)
    (options : List Options) (w : World) (s d t : String)
    (hs : filepath.Abs o formPDFFile = .ok s) (hd : filepath.Abs o destPDFFile = .ok d)
    (hstat : o.statErr s = none) (hsrc : w.fs s ≠ none) (ht : o.tempDir = .ok t)
    (hc : o.createErr = none) (hf : o.flushErr = none) :
    ∃ post, (Fill o form formPDFFile destPDFFile options w).2.events
        = w.events ++ Event.close (filepath.Clean (t ++ "/data.fdf"))
          :: Event.run t "java"
              (["-jar", "mcpdf.jar", "fill_form", s, "data", filepath.Clean (t ++ "/data.fdf"),
                  "output", filepath.Clean (t ++ "/output.pdf")]
                ++ (if (effectiveOptions options).Flatten then ["flatten"] else []))
          :: post ∧
      ∀ dir name args, Event.run dir name args ∉ post := by
  rw [Fill_reached o form formPDFFile destPDFFile options w s d t hs hd hstat hsrc ht]
  obtain ⟨post, hp1, hp2⟩ := inWorkspace_events o form s d (effectiveOptions options) t
    { fs := w.fs.set t (some Node.dir), events := w.events } hc hf
  refine ⟨post ++ cleanupEvents o t, ?_, ?_⟩
  · rw [cleanup_events, hp1]
    simp [engineArgs]
  · intro dir name args hmem
    rcases List.mem_append.1 hmem with h | h
    · rcases hp2 _ h with h | h <;> cases h
    · rcases mem_cleanupEvents o t _ h with h | ⟨_, h⟩ <;> cases h

/-- C6 on two runs: with the default options the list ends in `flatten`, with
Flatten false it is the eight arguments alone. -/
theorem Fill_engine_arguments_witness :
    (∃ post, (Fill envOK formAlice "in.pdf" "out.pdf" [] worldDemo).2.events
        = [] ++ Event.close "/tmp/fillpdf-123/data.fdf"
          :: Event.run "/tmp/fillpdf-123" "java"
              ["-jar", "mcpdf.jar", "fill_form", "/home/u/in.pdf", "data",
                "/tmp/fillpdf-123/data.fdf", "output", "/tmp/fillpdf-123/output.pdf", "flatten"]
          :: post ∧
      ∀ dir name args, Event.run dir name args ∉ post) ∧
    (∃ post, (Fill envOK formAlice "in.pdf" "out.pdf" [{ Overwrite := true, Flatten := false }]
          worldDemo).2.events
        = [] ++ Event.close "/tmp/fillpdf-123/data.fdf"
          :: Event.run "/tmp/fillpdf-123" "java"
              ["-jar", "mcpdf.jar", "fill_form", "/home/u/in.pdf", "data",
                "/tmp/fillpdf-123/data.fdf", "output", "/tmp/fillpdf-123/output.pdf"]
          :: post ∧
      ∀ dir name args, Event.run dir name args ∉ post) :=
  ⟨Fill_engine_arguments envOK formAlice "in.pdf" "out.pdf" [] worldDemo "/home/u/in.pdf"
      "/home/u/out.pdf" "/tmp/fillpdf-123" rfl rfl rfl (by decide) rfl rfl rfl,
   Fill_engine_arguments envOK formAlice "in.pdf" "out.pdf"
      [{ Overwrite := true, Flatten := false }] worldDemo "/home/u/in.pdf"
      "/home/u/out.pdf" "/tmp/fillpdf-123" rfl rfl rfl (by decide) rfl rfl rfl⟩

/-- C7 (as amended): once `Fill` has created the workspace `t`, every exit
path ends with `os.RemoveAll(t)`, after which only the log line can follow; if
that removal succeeds nothing is left at `t` or at any path leading into it,
and in particular nothing at the paths `filepath.Clean(t + "/data.fdf")` and
`filepath.Clean(t + "/output.pdf")` that `Fill` writes (`t` is not the empty
name, which `ioutil.TempDir` never returns); if the removal fails the failure
is logged and the result of `Fill` is what it would have been had the removal
succeeded. -/
theorem Fill_workspace_removal (o : Env) (form : Form) (formPDFFile destPDFFile : String)
    (options : List Options) (w : World) (s d t : String)
    (hs : filepath.Abs o formPDFFile = .ok s) (hd : filepath.Abs o destPDFFile = .ok d)
    (hstat : o.statErr s = none) (hsrc : w.fs s ≠ none) (ht : o.tempDir = .ok t) :
    (∃ pre post, (Fill o form formPDFFile destPDFFile options w).2.events
        = w.events ++ pre ++ Event.removeAll t :: post ∧
      ∀ e ∈ post, ∃ msg, e = Event.log msg) ∧
    (o.removeAllErr = none →
      (∀ p, under t p = true → (Fill o form formPDFFile destPDFFile options w).2.fs p = none) ∧
      (Fill o form formPDFFile destPDFFile options w).2.fs t = none ∧
      (t ≠ "" →
        (Fill o form formPDFFile destPDFFile options w).2.fs
            (filepath.Clean (t ++ "/data.fdf")) = none ∧
        (Fill o form formPDFFile destPDFFile options w).2.fs
            (filepath.Clean (t ++ "/output.pdf")) = none)) ∧
    (∀ errD, o.removeAllErr = some errD →
      Event.log ("fillpdf: failed to remove temporary directory '" ++ t ++ "': " ++ errD)
          ∈ (Fill o form formPDFFile destPDFFile options w).2.events ∧
      (Fill o form formPDFFile destPDFFile options w).1
        = (Fill { o with removeAllErr := none } form formPDFFile destPDFFile options w).1) := by
  rw [Fill_reached o form formPDFFile destPDFFile options w s d t hs hd hstat hsrc ht]
  obtain ⟨pre, hpre⟩ := inWorkspace_events_grow o form s d (effectiveOptions options) t
    { fs := w.fs.set t (some Node.dir), events := w.events }
  refine ⟨?_, ?_, ?_⟩
  · cases hr : o.removeAllErr with
    | none => exact ⟨pre, [], by simp [cleanup_events, hpre, cleanupEvents, hr], by simp⟩
    | some errD =>
      exact ⟨pre, [Event.log ("fillpdf: failed to remove temporary directory '" ++ t ++ "': "
        ++ errD)], by simp [cleanup_events, hpre, cleanupEvents, hr], by simp⟩
  · intro hr
    have hall : ∀ p, under t p = true →
        (Fill.cleanup o t (Fill.inWorkspace o form s d (effectiveOptions options) t
          { fs := w.fs.set t (some Node.dir), events := w.events }).2).fs p = none := by
      intro p hp
      simp [cleanup_fs, hr, hp]
    exact ⟨hall, hall t (under_self t),
      fun hne => ⟨hall _ (under_data t hne), hall _ (under_output t hne)⟩⟩
  · intro errD hr
    refine ⟨by simp [cleanup_events, cleanupEvents, hr], ?_⟩
    rw [Fill_reached { o with removeAllErr := none } form formPDFFile destPDFFile options w s d t
      hs hd hstat hsrc ht]
    rfl

/-- C7 (as amended) on two successful runs: the workspace and its two files
are gone, also when the name of the workspace is not in clean form (the
files are then written at `/tmp/ws/fillpdf-1/...`). -/
theorem Fill_workspace_removal_witness :
    ((Fill envOK formAlice "in.pdf" "out.pdf" [] worldDemo).2.fs "/tmp/fillpdf-123" = none ∧
      (Fill envOK formAlice "in.pdf" "out.pdf" [] worldDemo).2.fs "/tmp/fillpdf-123/data.fdf"
        = none ∧
      (Fill envOK formAlice "in.pdf" "out.pdf" [] worldDemo).2.fs "/tmp/fillpdf-123/output.pdf"
        = none) ∧
    (Event.close "/tmp/ws/fillpdf-1/data.fdf"
        ∈ (Fill envUnclean formAlice "in.pdf" "out.pdf" [] worldDemo).2.events ∧
      (Fill envUnclean formAlice "in.pdf" "out.pdf" [] worldDemo).2.fs "/tmp//ws/fillpdf-1"
        = none ∧
      (Fill envUnclean formAlice "in.pdf" "out.pdf" [] worldDemo).2.fs
          "/tmp/ws/fillpdf-1/data.fdf" = none ∧
      (Fill envUnclean formAlice "in.pdf" "out.pdf" [] worldDemo).2.fs
          "/tmp/ws/fillpdf-1/output.pdf" = none) :=
  have h := (Fill_workspace_removal envOK formAlice "in.pdf" "out.pdf" [] worldDemo
    "/home/u/in.pdf" "/home/u/out.pdf" "/tmp/fillpdf-123" rfl rfl rfl (by decide) rfl).2.1 rfl
  have g := (Fill_workspace_removal envUnclean formAlice "in.pdf" "out.pdf" [] worldDemo
    "/home/u/in.pdf" "/home/u/out.pdf" "/tmp//ws/fillpdf-1" rfl rfl rfl (by decide) rfl).2.1 rfl
  ⟨⟨h.2.1, (h.2.2 (by decide)).1, (h.2.2 (by decide)).2⟩,
    ⟨by decide, g.2.1, (g.2.2 (by decide)).1, (g.2.2 (by decide)).2⟩⟩

/-- C7 as stated fails: when `os.RemoveAll` fails, `Fill` returns nil and the
workspace it created, with the engine's output in it, is still on disk. -/
theorem Fill_workspace_survives_failed_removal :
    worldDemo.fs "/tmp/fillpdf-123" = none ∧
    (Fill envStuck formAlice "in.pdf" "out.pdf" [] worldDemo).1 = none ∧
    (Fill envStuck formAlice "in.pdf" "out.pdf" [] worldDemo).2.fs "/tmp/fillpdf-123"
      = some Node.dir ∧
    (Fill envStuck formAlice "in.pdf" "out.pdf" [] worldDemo).2.fs "/tmp/fillpdf-123/output.pdf"
      = some (Node.file "%PDF-filled") := by
  decide

/-- C8 (as amended): for a destination outside the new workspace, either
`Fill` returns nil and the destination holds exactly the bytes the engine
wrote, or it returns an error and the destination is as it was before, except
when the error is that of `os.Remove` on an existing destination with
Overwrite true, or that of the final copy (with or without a destination
before). -/
theorem Fill_all_or_nothing (o : Env) (form : Form) (formPDFFile destPDFFile : String)
    (options : List Options) (w : World) (d : String)
    (hd : filepath.Abs o destPDFFile = .ok d)
    (hfresh : ∀ t, o.tempDir = .ok t → Fresh w.fs t ∧ ¬ scratchPath t d) :
    ((Fill o form formPDFFile destPDFFile options w).1 = none →
      ∃ bytes, o.engineOut = some bytes ∧
        (Fill o form formPDFFile destPDFFile options w).2.fs d = some (Node.file bytes)) ∧
    (∀ msg, (Fill o form formPDFFile destPDFFile options w).1 = some msg →
      (Fill o form formPDFFile destPDFFile options w).2.fs d = w.fs d ∨
      (∃ cause, msg = "failed to remove destination PDF file: " ++ cause ∧ w.fs d ≠ none ∧
        (effectiveOptions options).Overwrite = true) ∨
      (∃ cause, msg = "failed to copy created output PDF to final destination: " ++ cause)) := by
  refine ⟨Fill_success o form formPDFFile destPDFFile options w d hd hfresh, ?_⟩
  intro msg herr
  rcases Fill_cases o form formPDFFile destPDFFile options w with
    ⟨e, _, h⟩ | ⟨s, e, _, _, h⟩ | ⟨s, d', e, _, _, _, h⟩ | ⟨s, d', _, _, _, _, h⟩ |
    ⟨s, d', e, _, _, _, _, _, h⟩ | ⟨s, d', t, hs, hd', hstat, hsrc, ht⟩
  · rw [h]; exact Or.inl rfl
  · rw [h]; exact Or.inl rfl
  · rw [h]; exact Or.inl rfl
  · rw [h]; exact Or.inl rfl
  · rw [h]; exact Or.inl rfl
  · have hdd : d' = d := by rw [hd] at hd'; cases hd'; rfl
    subst hdd
    obtain ⟨_, hns⟩ := hfresh t ht
    obtain ⟨hu, hdt, h1, h2⟩ := not_scratch_elim hns
    rw [Fill_reached o form formPDFFile destPDFFile options w s d' t hs hd hstat hsrc ht]
      at herr ⊢
    have hw1 : ({ fs := w.fs.set t (some Node.dir), events := w.events } : World).fs d'
        = w.fs d' := by simp [FS.set, hdt]
    have hcl : ∀ w2 : World, (Fill.cleanup o t w2).fs d' = w2.fs d' := by
      intro w2
      simp [cleanup_fs, hu]
    rcases inWorkspace_error o form s d' (effectiveOptions options) t _ msg h1 h2 herr with
      hx | ⟨c, hc1, hc2, hc3⟩ | hx
    · exact Or.inl (by rw [hcl, hx, hw1])
    · exact Or.inr (Or.inl ⟨c, hc1, by rwa [hw1] at hc2, hc3⟩)
    · exact Or.inr (Or.inr hx)

/-- C8 (as amended) on a run that creates `/home/u/new.pdf`. -/
theorem Fill_all_or_nothing_witness :
    (Fill envOK formAlice "in.pdf" "new.pdf" [] worldDemo).1 = none ∧
    (Fill envOK formAlice "in.pdf" "new.pdf" [] worldDemo).2.fs "/home/u/new.pdf"
      = some (Node.file "%PDF-filled") := by
  have h := (Fill_all_or_nothing envOK formAlice "in.pdf" "new.pdf" [] worldDemo
    "/home/u/new.pdf" rfl
    (fun t ht => by
      have e : t = "/tmp/fillpdf-123" := by
        simp only [envOK, Except.ok.injEq] at ht
        exact ht.symm
      subst e
      exact ⟨fresh_demo, not_scratch_new⟩)).1 (by decide)
  obtain ⟨bytes, h1, h2⟩ := h
  have e : bytes = "%PDF-filled" := by
    simp only [envOK, Option.some.injEq] at h1
    exact h1.symm
  exact ⟨by decide, by rw [h2, e]⟩

/-- C8 as stated fails: no destination exists, so nothing is removed first;
the copy fails part-way; `Fill` returns an error and the destination, absent
before, now holds the part that was written. -/
theorem Fill_failed_copy_leaves_partial_destination :
    worldDemo.fs "/home/u/new.pdf" = none ∧
    Event.remove "/home/u/new.pdf"
      ∉ (Fill envCopyFails formAlice "in.pdf" "new.pdf" [] worldDemo).2.events ∧
    (Fill envCopyFails formAlice "in.pdf" "new.pdf" [] worldDemo).1
      = some ("failed to copy created output PDF to final destination: "
          ++ "write /home/u/new.pdf: no space left on device") ∧
    (Fill envCopyFails formAlice "in.pdf" "new.pdf" [] worldDemo).2.fs "/home/u/new.pdf"
      = some (Node.file "%PDF-fi") := by
  decide

/-- C9 (as amended): the error `Fill` returns is that of the first step that
fails, in the order path resolution, source check, workspace creation,
creating and writing the data document, the engine, destination check,
removal of the old destination, the copy: the name of that stage followed by
the cause the step gave (`firstFailure`; the workspace being new and the
destination outside it); `Fill` returns nil only if each of these steps
succeeded (the removal when it was attempted); and the outcome of closing the
data document has no influence on what `Fill` returns or does. -/
theorem Fill_reports_failures (o : Env) (form : Form) (formPDFFile destPDFFile : String)
    (options : List Options) (w : World) :
    ((∀ d t, filepath.Abs o destPDFFile = .ok d → o.tempDir = .ok t →
        Fresh w.fs t ∧ ¬ scratchPath t d) →
      (Fill o form formPDFFile destPDFFile options w).1
        = firstFailure o w formPDFFile destPDFFile options) ∧
    ((Fill o form formPDFFile destPDFFile options w).1 = none →
      (∃ s d t, filepath.Abs o formPDFFile = .ok s ∧ filepath.Abs o destPDFFile = .ok d ∧
        o.statErr s = none ∧ w.fs s ≠ none ∧ o.tempDir = .ok t ∧ o.statErr d = none ∧
        ∀ new, (Fill o form formPDFFile destPDFFile options w).2.events = w.events ++ new →
          Event.remove d ∈ new → o.removeErr = none) ∧
      o.createErr = none ∧ o.flushErr = none ∧ o.engineErr = none ∧ o.copyErr = none) ∧
    (∀ x, Fill { o with closeErr := x } form formPDFFile destPDFFile options w
      = Fill o form formPDFFile destPDFFile options w) := by
  refine ⟨Fill_firstFailure o form formPDFFile destPDFFile options w, ?_, fun x => rfl⟩
  · intro hnil
    rcases Fill_cases o form formPDFFile destPDFFile options w with
      ⟨e, _, h⟩ | ⟨s, e, _, _, h⟩ | ⟨s, d, e, _, _, _, h⟩ | ⟨s, d, _, _, _, _, h⟩ |
      ⟨s, d, e, _, _, _, _, _, h⟩ | ⟨s, d, t, hs, hd, hstat, hsrc, ht⟩
    · rw [h] at hnil; cases hnil
    · rw [h] at hnil; cases hnil
    · rw [h] at hnil; cases hnil
    · rw [h] at hnil; cases hnil
    · rw [h] at hnil; cases hnil
    · rw [Fill_reached o form formPDFFile destPDFFile options w s d t hs hd hstat hsrc ht]
        at hnil ⊢
      rcases inWorkspace_cases o form s d (effectiveOptions options) t
          { fs := w.fs.set t (some Node.dir), events := w.events } with
        ⟨e, _, h⟩ | ⟨e, n, _, _, h⟩ | ⟨e, _, _, _, h⟩ | ⟨hc, hf, he, h⟩
      · rw [h] at hnil; cases hnil
      · rw [h] at hnil; cases hnil
      · rw [h] at hnil; cases hnil
      · rw [h] at hnil ⊢
        obtain ⟨hst, hcp, hrm, hev⟩ := finalize_nil o _ d _ _ hnil
        refine ⟨⟨s, d, t, hs, hd, hstat, hsrc, ht, hst, ?_⟩, hc, hf, he, hcp⟩
        intro new hnew hmem
        cases hwd : (afterEngine o form s (effectiveOptions options) t
            { fs := w.fs.set t (some Node.dir), events := w.events }).fs d with
        | some n => exact (hrm (by simp [hwd])).2
        | none =>
          exfalso
          rw [cleanup_events, hev] at hnew
          simp only [afterRemove, hwd, afterEngine_events, List.append_assoc] at hnew
          have hn := List.append_cancel_left hnew
          rw [← hn] at hmem
          simp only [List.cons_append, List.nil_append, List.mem_cons, reduceCtorEq,
            false_or] at hmem
          rcases mem_cleanupEvents o t _ hmem with h | ⟨_, h⟩ <;> cases h

/-- C9 (as amended) on two failing runs.  The engine exits with status 1: the
error is the engine stage with that cause.  The check of the destination
fails while Overwrite is false: the error is the stage of the check with its
cause, not the conflict error. -/
theorem Fill_reports_failures_witness :
    (Fill envEngineFails formAlice "in.pdf" "out.pdf" [] worldDemo).1
      = some "mcpdf error: exit status 1" ∧
    (Fill envDestStatFails formAlice "in.pdf" "out.pdf"
        [{ Overwrite := false, Flatten := true }] worldDemo).1
      = some ("failed to check if destination PDF file exists: "
          ++ "stat /home/u/out.pdf: permission denied") :=
  ⟨((Fill_reports_failures envEngineFails formAlice "in.pdf" "out.pdf" [] worldDemo).1
      (fun d t hd ht => by
        have e1 : d = "/home/u/out.pdf" := by
          have e : filepath.Abs envEngineFails "out.pdf" = .ok "/home/u/out.pdf" := rfl
          rw [e] at hd
          injection hd with hd
          exact hd.symm
        have e2 : t = "/tmp/fillpdf-123" := by
          have e : envEngineFails.tempDir = .ok "/tmp/fillpdf-123" := rfl
          rw [e] at ht
          injection ht with ht
          exact ht.symm
        subst e1 e2
        exact ⟨fresh_demo, not_scratch_out⟩)).trans (by decide),
   ((Fill_reports_failures envDestStatFails formAlice "in.pdf" "out.pdf"
      [{ Overwrite := false, Flatten := true }] worldDemo).1
      (fun d t hd ht => by
        have e1 : d = "/home/u/out.pdf" := by
          have e : filepath.Abs envDestStatFails "out.pdf" = .ok "/home/u/out.pdf" := rfl
          rw [e] at hd
          injection hd with hd
          exact hd.symm
        have e2 : t = "/tmp/fillpdf-123" := by
          have e : envDestStatFails.tempDir = .ok "/tmp/fillpdf-123" := rfl
          rw [e] at ht
          injection ht with ht
          exact ht.symm
        subst e1 e2
        exact ⟨fresh_demo, not_scratch_out⟩)).trans (by decide)⟩

/-- C9 as stated fails: closing the data document fails, and `Fill` returns
nil. -/
theorem Fill_swallows_close_failure :
    (os.File.Close envCloseFails "/tmp/fillpdf-123/data.fdf" worldDemo).1
      = some "close /tmp/fillpdf-123/data.fdf: input/output error" ∧
    Event.close "/tmp/fillpdf-123/data.fdf"
      ∈ (Fill envCloseFails formAlice "in.pdf" "out.pdf" [] worldDemo).2.events ∧
    (Fill envCloseFails formAlice "in.pdf" "out.pdf" [] worldDemo).1 = none := by
  decide

/-- C10: `Fill` called with no Options behaves as `Fill` called with
`{Overwrite: true, Flatten: true}`, and `Fill` called with one or more Options
behaves as `Fill` called with the first of them alone.  On a run in which
every step succeeds and a file exists at the destination: with no Options
`Fill` returns nil, the destination holds the engine's bytes and the engine is
run with the `flatten` directive; with Options supplied the first one decides:
with its Overwrite false `Fill` returns the conflict error and the
destination keeps its node, with its Overwrite true the destination is
replaced, and the engine is run with `flatten` exactly when its Flatten is
true. -/
theorem Fill_default_options (o : Env) (form : Form) (formPDFFile destPDFFile : String)
    (w : World) :
    Fill o form formPDFFile destPDFFile [] w
      = Fill o form formPDFFile destPDFFile [{ Overwrite := true, Flatten := true }] w ∧
    (∀ first rest, Fill o form formPDFFile destPDFFile (first :: rest) w
      = Fill o form formPDFFile destPDFFile [first] w) ∧
    (∀ s d t bytes n,
      filepath.Abs o formPDFFile = .ok s → filepath.Abs o destPDFFile = .ok d →
      o.statErr s = none → w.fs s ≠ none → o.tempDir = .ok t →
      o.createErr = none → o.flushErr = none → o.engineErr = none →
      o.engineOut = some bytes → o.statErr d = none → o.removeErr = none →
      o.copyErr = none → w.fs d = some n → Fresh w.fs t →
      ((Fill o form formPDFFile destPDFFile [] w).1 = none ∧
        (Fill o form formPDFFile destPDFFile [] w).2.fs d = some (Node.file bytes) ∧
        ∃ post, (Fill o form formPDFFile destPDFFile [] w).2.events
            = w.events ++ Event.close (filepath.Clean (t ++ "/data.fdf"))
              :: Event.run t "java"
                  ["-jar", "mcpdf.jar", "fill_form", s, "data",
                    filepath.Clean (t ++ "/data.fdf"), "output",
                    filepath.Clean (t ++ "/output.pdf"), "flatten"]
              :: post ∧
          ∀ dir name args, Event.run dir name args ∉ post) ∧
      (∀ first rest,
        (Fill o form formPDFFile destPDFFile (first :: rest) w).1
          = (if first.Overwrite then none
             else some ("destination PDF file already exists: '" ++ d ++ "'")) ∧
        (Fill o form formPDFFile destPDFFile (first :: rest) w).2.fs d
          = (if first.Overwrite then some (Node.file bytes) else some n) ∧
        ∃ post, (Fill o form formPDFFile destPDFFile (first :: rest) w).2.events
            = w.events ++ Event.close (filepath.Clean (t ++ "/data.fdf"))
              :: Event.run t "java"
                  (["-jar", "mcpdf.jar", "fill_form", s, "data",
                      filepath.Clean (t ++ "/data.fdf"), "output",
                      filepath.Clean (t ++ "/output.pdf")]
                    ++ (if first.Flatten then ["flatten"] else []))
              :: post ∧
          ∀ dir name args, Event.run dir name args ∉ post)) := by
  refine ⟨rfl, fun _ _ => rfl, ?_⟩
  intro s d t bytes n hs hd hstat hsrc ht hc hf he ho hstd hr hcp hex hfresh
  refine ⟨?_, ?_⟩
  · obtain ⟨r1, r2⟩ := Fill_allOK o form formPDFFile destPDFFile [] w s d t bytes n
      hs hd hstat hsrc ht hc hf he ho hstd hr hcp hex hfresh
    exact ⟨r1, r2,
      Fill_run_event o form formPDFFile destPDFFile [] w s d t hs hd hstat hsrc ht hc hf⟩
  · intro first rest
    obtain ⟨r1, r2⟩ := Fill_allOK o form formPDFFile destPDFFile (first :: rest) w s d t bytes n
      hs hd hstat hsrc ht hc hf he ho hstd hr hcp hex hfresh
    exact ⟨r1, r2,
      Fill_run_event o form formPDFFile destPDFFile (first :: rest) w s d t hs hd hstat hsrc ht
        hc hf⟩

/-- C10 on two runs: with no Options the old `/home/u/out.pdf` is replaced;
with the Options `{false, false}` and `{true, true}` the first is used: the
conflict error is returned, the file keeps `old`, and the engine is run
without `flatten`. -/
theorem Fill_default_options_witness :
    ((Fill envOK formAlice "in.pdf" "out.pdf" [] worldDemo).1 = none ∧
      (Fill envOK formAlice "in.pdf" "out.pdf" [] worldDemo).2.fs "/home/u/out.pdf"
        = some (Node.file "%PDF-filled")) ∧
    ((Fill envOK formAlice "in.pdf" "out.pdf"
          [{ Overwrite := false, Flatten := false }, { Overwrite := true, Flatten := true }]
          worldDemo).1
        = some "destination PDF file already exists: '/home/u/out.pdf'" ∧
      (Fill envOK formAlice "in.pdf" "out.pdf"
          [{ Overwrite := false, Flatten := false }, { Overwrite := true, Flatten := true }]
          worldDemo).2.fs "/home/u/out.pdf"
        = some (Node.file "old") ∧
      Event.run "/tmp/fillpdf-123" "java"
          ["-jar", "mcpdf.jar", "fill_form", "/home/u/in.pdf", "data",
            "/tmp/fillpdf-123/data.fdf", "output", "/tmp/fillpdf-123/output.pdf"]
        ∈ (Fill envOK formAlice "in.pdf" "out.pdf"
          [{ Overwrite := false, Flatten := false }, { Overwrite := true, Flatten := true }]
          worldDemo).2.events) :=
  have h := (Fill_default_options envOK formAlice "in.pdf" "out.pdf" worldDemo).2.2
    "/home/u/in.pdf" "/home/u/out.pdf" "/tmp/fillpdf-123" "%PDF-filled" (Node.file "old")
    rfl rfl rfl (by decide) rfl rfl rfl rfl rfl rfl rfl rfl (by decide) fresh_demo
  have g := h.2 { Overwrite := false, Flatten := false } [{ Overwrite := true, Flatten := true }]
  ⟨⟨h.1.1, h.1.2.1⟩, ⟨g.1, g.2.1, by
    obtain ⟨post, hp, _⟩ := g.2.2
    rw [hp]
    exact List.mem_append_right _
      (List.mem_cons_of_mem _ (List.mem_cons.2 (Or.inl rfl)))⟩⟩

end fillpdf
